import Mathlib

/-!
Verification of the insight-bff multilingual content resolution core.

The definitions below are a shallow embedding of the repository source:
  * `src/utils/textTranslate.mjs` (chunking, retry/fallback, two-tier cache),
  * `server.mjs` (cluster text resolver `ensureClusterTextInLang`, the
    in-flight deduplication map, the `/feed` handler, the `/translate/batch`
    handler and its per-IP token bucket).
JavaScript strings are modelled as Lean `String`/`List Char`; timestamps as
`Nat` (the value of `Date.parse`); the sha1-based digests as an abstract
function parameter (claims never depend on hash internals); the machine
translation provider as a deterministic oracle.
-/

namespace BFF

/-! ## Basic string helpers (JS semantics) -/

/-- The sentence delimiter class of the chunking regex in
`splitIntoChunks` (textTranslate.mjs): the characters `.` `!` `?` and
newline. -/
def isDelim (c : Char) : Bool := c = '.' || c = '!' || c = '?' || c = '\n'

def notDelim (c : Char) : Bool := !(isDelim c)

/-- Whitespace class used by the JS regexes (`\s`) restricted to the ASCII
whitespace actually occurring in the data model. -/
def isWsChar (c : Char) : Bool :=
  c = ' ' || c = '\t' || c = '\n' || c = '\r'

/-- Auxiliary scan for `normWs`: collapse every run of whitespace to a
single space, as in `replace(/\s+/g, " ")`. The flag records whether the
previous character was whitespace. -/
def squashWsAux : List Char → Bool → List Char
  | [], _ => []
  | c :: cs, inWs =>
    if isWsChar c then
      if inWs then squashWsAux cs true else ' ' :: squashWsAux cs true
    else c :: squashWsAux cs false

/-- Strip leading and trailing spaces (after squashing, the only whitespace
left is the space character, so this matches `String.prototype.trim`). -/
def trimSpaces (l : List Char) : List Char :=
  ((l.dropWhile (fun c => c = ' ')).reverse.dropWhile (fun c => c = ' ')).reverse

/-- The normalisation `(s || "").replace(/\s+/g, " ").trim()` used by the
legacy-row detection in `ensureClusterTextInLang`. -/
def normWs (s : String) : String := ⟨trimSpaces (squashWsAux s.data false)⟩

/-- Strip trailing whitespace, as in `(v || "").replace(/\s+$/g, "")`
(the `clean` helper of `translateNow`). -/
def trimEndWs (s : String) : String := ⟨(s.data.reverse.dropWhile isWsChar).reverse⟩

/-- Does `pat` occur at the start of `l`? (structural, kernel-reducible). -/
def startsWithL : List Char → List Char → Bool
  | [], _ => true
  | _ :: _, [] => false
  | a :: as, b :: bs => a = b && startsWithL as bs

/-- Does `pat` occur anywhere in `l`? Models `String.prototype.includes`. -/
def containsSub (pat : List Char) : List Char → Bool
  | [] => pat.isEmpty
  | b :: bs => startsWithL pat (b :: bs) || containsSub pat bs

/-- `strContains s pat` models the JS `s.includes(pat)`. -/
def strContains (s pat : String) : Bool := containsSub pat.data s.data

/-- Split a character list on a separator character, mirroring
`String.prototype.split` with a one-character separator. -/
def splitChar (sep : Char) : List Char → List (List Char)
  | [] => [[]]
  | c :: cs =>
    match splitChar sep cs with
    | [] => if c = sep then [[], []] else [[c]]
    | x :: xs => if c = sep then [] :: x :: xs else (c :: x) :: xs

/-- `baseOf t` models `(t || "").split("-")[0].toLowerCase()`, the base
language helper appearing throughout server.mjs and textTranslate.mjs. -/
def baseOf (t : String) : String :=
  match splitChar '-' t.data with
  | [] => ""
  | p :: _ => ⟨p.map Char.toLower⟩

/-- `String.prototype.trim` on the whitespace of the data model. -/
def trimJs (l : List Char) : List Char :=
  ((l.dropWhile isWsChar).reverse.dropWhile isWsChar).reverse

/-- The subtag transformation of `normalizeBcp47`: only the first subtag
after the primary one is uppercased, and only when it has exactly two
characters; every other subtag is kept verbatim
(`(p, i) => (i === 0 && p.length === 2 ? p.toUpperCase() : p)`). -/
def upperFirstRegion : List (List Char) → List (List Char)
  | [] => []
  | p :: rest => (if p.length = 2 then p.map Char.toUpper else p) :: rest

/-- `array.join("-")`. -/
def joinDash : List (List Char) → List Char
  | [] => []
  | [p] => p
  | p :: q :: rest => p ++ '-' :: joinDash (q :: rest)

/-- `normalizeBcp47` from the language utilities module of the source
tree: reject a falsy tag, trim, turn underscores into hyphens, reject a
blank result, lowercase the primary subtag, uppercase the following
subtag when it is two characters long, keep all later subtags verbatim,
and drop a trailing empty rest. The `null` returns of the source are
modelled as the empty string (the callers only test falsiness). -/
def normalizeBcp47 (s : String) : String :=
  if s = "" then ""
  else
    let t := (trimJs s.data).map (fun c => if c = '_' then '-' else c)
    if t.isEmpty then ""
    else
      match splitChar '-' t with
      | [] => ""
      | p :: rest =>
        let restJ := joinDash (upperFirstRegion rest)
        if restJ.isEmpty then ⟨p.map Char.toLower⟩
        else ⟨(p.map Char.toLower) ++ '-' :: restJ⟩

/-- In-order concatenation of a list of strings (JS `array.join("")`). -/
def concatStrings (l : List String) : String := ⟨(l.map String.data).flatten⟩

/-! ## Chunking (`splitIntoChunks` in textTranslate.mjs)

`t.match(/[^.!?\n]+[.!?\n]*/g)` scans left to right: each match is a
maximal run of non-delimiters followed by the delimiters after it, and
characters skipped before a match begins (a leading run of delimiters)
belong to no match. `splitSentencesFuel` implements exactly that scan;
the fuel argument makes the recursion structural so that concrete
instances reduce in the kernel. -/

def splitSentencesFuel : Nat → List Char → List (List Char)
  | 0, _ => []
  | _ + 1, [] => []
  | fuel + 1, c :: cs =>
    if isDelim c then splitSentencesFuel fuel cs
    else
      let body := (c :: cs).takeWhile notDelim
      let rest1 := (c :: cs).dropWhile notDelim
      (body ++ rest1.takeWhile isDelim) :: splitSentencesFuel fuel (rest1.dropWhile isDelim)

def splitSentences (l : List Char) : List (List Char) :=
  splitSentencesFuel l.length l

/-- The sentence-accumulation loop of `splitIntoChunks`: grow a buffer
until adding the next sentence would exceed `maxLen`, then emit it. -/
def groupSentences (maxLen : Nat) : List (List Char) → List Char → List (List Char)
  | [], buf => if buf.isEmpty then [] else [buf]
  | s :: rest, buf =>
    if buf.length + s.length > maxLen && !buf.isEmpty then
      buf :: groupSentences maxLen rest s
    else groupSentences maxLen rest (buf ++ s)

/-- The hard character split applied to a single over-long chunk
(`for (let i = 0; i < c.length; i += maxLen) out.push(c.slice(i, i + maxLen))`).
With `maxLen = 0` the source loop would not terminate; the model returns
`[]` in that degenerate case, which no claim exercises. -/
def hardSplitFuel (maxLen : Nat) : Nat → List Char → List (List Char)
  | 0, _ => []
  | _ + 1, [] => []
  | fuel + 1, l => l.take maxLen :: hardSplitFuel maxLen fuel (l.drop maxLen)

def hardSplit (maxLen : Nat) (l : List Char) : List (List Char) :=
  hardSplitFuel maxLen l.length l

/-- `splitIntoChunks` from textTranslate.mjs, on character lists. -/
def splitIntoChunksL (t : List Char) (maxLen : Nat) : List (List Char) :=
  if t.length ≤ maxLen then [t]
  else
    let sentences := match splitSentences t with
      | [] => [t]
      | s :: ss => s :: ss
    let chunks := groupSentences maxLen sentences []
    (chunks.map (fun c => if c.length ≤ maxLen then [c] else hardSplit maxLen c)).flatten

/-- `splitIntoChunks` on strings. -/
def splitIntoChunks (t : String) (maxLen : Nat) : List String :=
  (splitIntoChunksL t.data maxLen).map (fun l => ⟨l⟩)

/-! ## `translateTextCached` (textTranslate.mjs)

The cache key `keyFor(text, src, dst)` is a sha1 digest of
`src|dst|text`; the model keys the caches by the triple itself, which is
what the digest stands for. The provider (`translateViaProvider`, a
Gemini call) is an oracle indexed by the number of provider invocations
made so far; `none` models a thrown error or a timeout of that attempt.
The persistent `translations` table is split into a read snapshot `dbc`
and an append-only `dbWrites` log, because the source treats inserts as
best effort (failures swallowed) and never re-reads its own writes within
one call. -/

structure TKey where
  src : String
  dst : String
  text : String
deriving DecidableEq, Repr

structure TState where
  mem : List (TKey × String)
  provCalls : Nat
  dbWrites : List (TKey × String)
deriving DecidableEq, Repr

/-- The environment knobs of textTranslate.mjs: `BFF_TRANSLATION_TAG=off`,
presence of a Gemini API key, `MT_RETRIES`, `MT_CHUNK_THRESHOLD`,
`MT_CHUNK_MAX`, `TRANSLATION_CACHE_MAX`. -/
structure TCfg where
  tagOff : Bool
  hasKey : Bool
  retries : Nat
  chunkThreshold : Nat
  chunkMax : Nat
  maxCache : Nat
deriving DecidableEq, Repr

/-- The fallback marker: empty when `BFF_TRANSLATION_TAG === "off"`. -/
def markerOf (cfg : TCfg) : String := if cfg.tagOff then "" else " [translated]"

def memLookup (st : TState) (k : TKey) : Option String :=
  (st.mem.find? (fun e => e.1 = k)).map (fun e => e.2)

/-- `lruSet`: delete the key if present, append at the end, evict the
oldest entry when over capacity. -/
def lruSet (cfg : TCfg) (st : TState) (k : TKey) (v : String) : TState :=
  let m1 := (st.mem.filter (fun e => !(e.1 = k : Bool))) ++ [(k, v)]
  { st with mem := if m1.length > cfg.maxCache then m1.drop 1 else m1 }

def dbWrite (st : TState) (k : TKey) (v : String) : TState :=
  { st with dbWrites := st.dbWrites ++ [(k, v)] }

/-- The retry loop body of `attemptTranslateWithRetries`: `n` attempts
remain; every attempt consumes one provider invocation. -/
def attemptGo (prov : Nat → String → Option String) (fallback : String) :
    Nat → String → TState → String × TState
  | 0, _, st => (fallback, st)
  | n + 1, text, st =>
    match prov st.provCalls text with
    | some out => (out, { st with provCalls := st.provCalls + 1 })
    | none => attemptGo prov fallback n text { st with provCalls := st.provCalls + 1 }

/-- `attemptTranslateWithRetries`: with no provider configured the
fallback is immediate; otherwise `MT_RETRIES + 1` attempts are made and
exhaustion returns the input suffixed with the marker. -/
def attemptTranslateWithRetries (cfg : TCfg) (prov : Nat → String → Option String)
    (text : String) (st : TState) : String × TState :=
  if !cfg.hasKey then (text ++ markerOf cfg, st)
  else attemptGo prov (text ++ markerOf cfg) (cfg.retries + 1) text st

/-- The per-chunk loop of `translateTextCached`: each part is looked up in
the in-process cache only, translated on miss, stored in both tiers, and
collected in input order. -/
def translateChunks (cfg : TCfg) (prov : Nat → String → Option String)
    (src cacheDst : String) : List String → TState → List String × TState
  | [], st => ([], st)
  | part :: rest, st =>
    let k : TKey := ⟨src, cacheDst, part⟩
    match memLookup st k with
    | some v =>
      let (vs, st') := translateChunks cfg prov src cacheDst rest st
      (v :: vs, st')
    | none =>
      let (tr, st1) := attemptTranslateWithRetries cfg prov part st
      let st2 := dbWrite (lruSet cfg st1 k tr) k tr
      let (vs, st') := translateChunks cfg prov src cacheDst rest st2
      (tr :: vs, st')

/-- `translateTextCached(text, { srcLang, dstLang })`. `dbc` is the read
snapshot of the persistent `translations` table. -/
def translateTextCached (cfg : TCfg) (prov : Nat → String → Option String)
    (dbc : TKey → Option String) (text srcLang dstLang : String)
    (st : TState) : String × TState :=
  if text = "" || dstLang = "" then (text, st)
  else if text.length < 2 then (text, st)
  else
    let cacheDst := if baseOf dstLang = "" then dstLang else baseOf dstLang
    let key : TKey := ⟨srcLang, cacheDst, text⟩
    match memLookup st key with
    | some v => (v, st)
    | none =>
      match dbc key with
      | some v => (v, lruSet cfg st key v)
      | none =>
        let (out, st1) :=
          if text.length ≥ cfg.chunkThreshold then
            let parts := splitIntoChunks text cfg.chunkMax
            let (vs, st') := translateChunks cfg prov srcLang cacheDst parts st
            (concatStrings vs, st')
          else attemptTranslateWithRetries cfg prov text st
        (out, dbWrite (lruSet cfg st1 key out) key out)

/-! ## Cluster text resolver (`ensureClusterTextInLang`, server.mjs)

The `cluster_ai` table is a list of rows; `created_at` holds the value of
`Date.parse` (0 for unparsable input). All selects of the resolver list
the columns `id,lang,ai_title,ai_summary,ai_details,is_current,created_at,model`
and omit `pivot_hash`, which the projection `proj` reflects by blanking
that field. The sha1-10 content digest is the abstract `Env.sig`;
`Env.trFields` is the deterministic outcome of one `translateFieldsCached`
invocation, and `calls` in the output records those invocations.
`Env.insertMode` injects storage faults on `cluster_ai` inserts: `ok`
(first attempt succeeds and stores `pivot_hash`), `noHash` (first attempt
throws, the fallback insert without `pivot_hash` succeeds), `alwaysFail`
(both attempts throw). Selects and `is_current` updates succeed. -/

structure Row where
  id : Nat
  cluster_id : Nat
  lang : String
  ai_title : String
  ai_summary : String
  ai_details : String
  is_current : Bool
  created_at : Nat
  model : String
  pivot_hash : Option String
deriving DecidableEq, Repr

structure DB where
  rows : List Row
  nextId : Nat
  now : Nat
deriving DecidableEq, Repr

/-- Column projection of the resolver selects (no `pivot_hash`). -/
def proj (r : Row) : Row := { r with pivot_hash := none }

def isCurrentFor (cid : Nat) (lang : String) (r : Row) : Bool :=
  r.cluster_id = cid && r.lang = lang && r.is_current

/-- `maybeSingle` select of the current row for `(cluster_id, lang)`. -/
def selTargetCurrent (db : DB) (cid : Nat) (lang : String) : Option Row :=
  ((db.rows.filter (isCurrentFor cid lang)).head?).map proj

/-- Select of every current row of the cluster (the pivot query). -/
def currentsOf (db : DB) (cid : Nat) : List Row :=
  (db.rows.filter (fun r => r.cluster_id = cid && r.is_current)).map proj

/-- `currents.find((r) => r.lang === "en") || currents[0]`. -/
def pivotFrom (c0 : Row) (l : List Row) : Row :=
  (l.find? (fun r => r.lang = "en")).getD c0

/-- The digest input `title + "\n" + summary + "\n" + details`. -/
def sigInput (r : Row) : String :=
  r.ai_title ++ "\n" ++ r.ai_summary ++ "\n" ++ r.ai_details

/-- `existingTarget || existingBase`: the base-language row is only
consulted when the exact row is missing and the base differs. -/
def useRowFor (db : DB) (cid : Nat) (tl : String) : Option Row :=
  match selTargetCurrent db cid tl with
  | some r => some r
  | none =>
    if baseOf tl ≠ "" && baseOf tl ≠ tl then selTargetCurrent db cid (baseOf tl)
    else none

inductive InsertMode where
  | ok
  | noHash
  | alwaysFail
deriving DecidableEq, Repr

structure Fields where
  title : String
  summary : String
  details : String
deriving DecidableEq, Repr

structure TransReq where
  fields : Fields
  srcLang : String
  dstLang : String
deriving DecidableEq, Repr

structure Env where
  sig : String → String
  trFields : TransReq → Fields
  insertMode : InsertMode
  updateFails : Bool

/-- The payload the resolver hands back:
`{...row, is_translated, translated_from}` restricted to the fields the
HTTP handlers consume. -/
structure Res where
  lang : String
  ai_title : String
  ai_summary : String
  ai_details : String
  is_translated : Bool
  translated_from : Option String
deriving DecidableEq, Repr

def resOfRow (r : Row) (it : Bool) (tf : Option String) : Res :=
  ⟨r.lang, r.ai_title, r.ai_summary, r.ai_details, it, tf⟩

def contentOf (r : Res) : String × String × String :=
  (r.ai_title, r.ai_summary, r.ai_details)

structure EnsureOut where
  res : Option Res
  db : DB
  calls : List TransReq
deriving Repr

/-- `translateNow(pivot, srcLang, dstLang)`: no-op when the destination is
empty or equal to the source, or when the bases agree and the pivot is
not tagged `#body=orig`; otherwise one `translateFieldsCached` call with
trailing whitespace stripped from each produced field. -/
def translateNow (env : Env) (pivot : Row) (srcLang dstLang : String) : Row × List TransReq :=
  let s := normalizeBcp47 srcLang
  let d := normalizeBcp47 dstLang
  if d = "" || s = d then (pivot, [])
  else
    let isOrigBody := strContains pivot.model "#body=orig"
    if !isOrigBody && baseOf s = baseOf d then (pivot, [])
    else
      let req : TransReq :=
        { fields :=
            { title := pivot.ai_title
              summary := pivot.ai_summary
              details := if pivot.ai_details = "" then pivot.ai_summary else pivot.ai_details }
          srcLang := if isOrigBody then "auto" else s
          dstLang := d }
      let out := env.trFields req
      ({ id := pivot.id
         cluster_id := pivot.cluster_id
         lang := d
         ai_title := trimEndWs out.title
         ai_summary := trimEndWs out.summary
         ai_details := trimEndWs out.details
         is_current := true
         created_at := 0
         model := ""
         pivot_hash := none }, [req])

/-- The row a successful insert stores: server-side `id`/`created_at`,
`model: bff-stub#ph=<sig>`, and `pivot_hash` only when the first insert
attempt (the one naming that column) succeeded. -/
def mkNewRow (db : DB) (cid : Nat) (tl : String) (tr : Row) (pivotSig : String)
    (withHash : Bool) : Row :=
  { id := db.nextId
    cluster_id := cid
    lang := tl
    ai_title := tr.ai_title
    ai_summary := tr.ai_summary
    ai_details := tr.ai_details
    is_current := true
    created_at := db.now
    model := "bff-stub#ph=" ++ pivotSig
    pivot_hash := if withHash then some pivotSig else none }

def insertRow (db : DB) (r : Row) : DB :=
  { rows := db.rows ++ [r], nextId := db.nextId + 1, now := db.now }

/-- `update({is_current:false}).eq(cluster_id).eq(lang).eq(is_current,true)`. -/
def flipCurrent (db : DB) (cid : Nat) (lang : String) : DB :=
  { db with rows := db.rows.map (fun r =>
      if isCurrentFor cid lang r then { r with is_current := false } else r) }

/-- `update({is_current:false}).eq("id", rowId)`. -/
def flipById (db : DB) (rowId : Nat) : DB :=
  { db with rows := db.rows.map (fun r =>
      if r.id = rowId then { r with is_current := false } else r) }

/-- The freshness test of the resolver: signature match (stored hash or
`#ph=` model tag) or a timestamp at least the pivot one, and none of the
legacy equal-field conditions, and no stub marker in any field. -/
def freshCheck (row pivot : Row) (pivotSig : String) : Bool :=
  let nrT := normWs row.ai_title = normWs pivot.ai_title && row.lang ≠ pivot.lang
  let nrS := normWs row.ai_summary = normWs pivot.ai_summary && row.lang ≠ pivot.lang
  let nrD := normWs row.ai_details = normWs pivot.ai_details && row.lang ≠ pivot.lang
  let stub := strContains row.ai_title " [translated]" ||
    strContains row.ai_summary " [translated]" ||
    strContains row.ai_details " [translated]"
  let samePivotSig :=
    (match row.pivot_hash with
     | some h => h = pivotSig
     | none => false) || strContains row.model ("#ph=" ++ pivotSig)
  (samePivotSig || decide (pivot.created_at ≤ row.created_at)) &&
    !nrT && !nrS && !nrD && !stub

/-- The branch of the resolver for an existing target (or base) row. The
surrounding `try` turns a double insert failure into
`return {...useRow, is_translated:false, translated_from:null}`. The two
`is_current` updates fail together under `env.updateFails`: the orig-body
flip sits in its own `try { } catch (_) {}`, so its failure is swallowed
and the insert still runs against the un-flipped table, while the
stale-path update by id is unguarded, so its failure reaches the outer
catch and the old row is returned over the unchanged database. -/
def ensureWithRow (env : Env) (db : DB) (cid : Nat) (tl : String)
    (pivot : Row) (pivotSig : String) (row : Row) : EnsureOut :=
  let isOrigBody := strContains row.model "#body=orig"
  if freshCheck row pivot pivotSig then
    if isOrigBody && baseOf row.lang = baseOf tl then
      let (translated, calls) := translateNow env pivot "auto" tl
      let db1 := if env.updateFails then db else flipCurrent db cid tl
      match env.insertMode with
      | .alwaysFail => ⟨some (resOfRow row false none), db1, calls⟩
      | .ok =>
        ⟨some (resOfRow translated true (some pivot.lang)),
          insertRow db1 (mkNewRow db1 cid tl translated pivotSig true), calls⟩
      | .noHash =>
        ⟨some (resOfRow translated true (some pivot.lang)),
          insertRow db1 (mkNewRow db1 cid tl translated pivotSig false), calls⟩
    else ⟨some (resOfRow row false none), db, []⟩
  else
    let (translated, calls) := translateNow env pivot pivot.lang tl
    if env.updateFails then ⟨some (resOfRow row false none), db, calls⟩
    else
      let db1 := flipById db row.id
      match env.insertMode with
      | .alwaysFail => ⟨some (resOfRow row false none), db1, calls⟩
      | .ok =>
        ⟨some (resOfRow translated true (some pivot.lang)),
          insertRow db1 (mkNewRow db1 cid tl translated pivotSig true), calls⟩
      | .noHash =>
        ⟨some (resOfRow translated true (some pivot.lang)),
          insertRow db1 (mkNewRow db1 cid tl translated pivotSig false), calls⟩

/-- The no-target branch: translate, re-check for a current row to avoid
racy duplicates, insert best-effort (failures swallowed), and return the
translation regardless. -/
def ensureNoTarget (env : Env) (db : DB) (cid : Nat) (tl : String)
    (pivot : Row) (pivotSig : String) : EnsureOut :=
  let (translated, calls) := translateNow env pivot pivot.lang tl
  let checkAgain := selTargetCurrent db cid tl
  let db' :=
    if checkAgain.isNone then
      match env.insertMode with
      | .ok => insertRow db (mkNewRow db cid tl translated pivotSig true)
      | .noHash => insertRow db (mkNewRow db cid tl translated pivotSig false)
      | .alwaysFail => db
    else db
  ⟨some (resOfRow translated true (some pivot.lang)), db', calls⟩

/-- `ensureClusterTextInLang(clusterId, targetLang)` (server.mjs
lines 1940-2158). -/
def ensureClusterTextInLang (env : Env) (db : DB) (clusterId : Nat)
    (targetLang : String) : EnsureOut :=
  match currentsOf db clusterId with
  | [] => ⟨none, db, []⟩
  | c0 :: cs =>
    let pivot := pivotFrom c0 (c0 :: cs)
    let pivotSig := env.sig (sigInput pivot)
    match useRowFor db clusterId targetLang with
    | some row => ensureWithRow env db clusterId targetLang pivot pivotSig row
    | none => ensureNoTarget env db clusterId targetLang pivot pivotSig

/-! ## In-flight deduplication map (`ensureClusterTextInLangDedup`)

Node runs resolver invocations as interleaved asynchronous tasks, so the
map is modelled as an event-driven state machine: a `call k` event is one
caller entering `ensureClusterTextInLangDedup` for key `k` (the key is
the string `clusterId|targetLang`); it either joins the pending run found
in the map or starts a fresh run numbered by `nextRun` and registers it.
A `settle k ok` event is the `finally` callback of that run firing, which
deletes the map entry whether the promise fulfilled or rejected (the
`ok` flag is ignored by the deletion, exactly as in the source). Callers
that joined the same run observe the settlement of that same promise, so
equal run ids mean equal outcomes. -/

structure DedupState where
  inflight : List (String × Nat)
  nextRun : Nat
deriving DecidableEq, Repr

def lookupKey (m : List (String × Nat)) (k : String) : Option Nat :=
  (m.find? (fun e => e.1 = k)).map (fun e => e.2)

inductive DedupEvent where
  | call (k : String)
  | settle (k : String) (ok : Bool)
deriving DecidableEq, Repr

structure DedupStepOut where
  state : DedupState
  joined : Option Nat
  started : Bool
deriving DecidableEq, Repr

def dedupStep (s : DedupState) : DedupEvent → DedupStepOut
  | .call k =>
    match lookupKey s.inflight k with
    | some r => ⟨s, some r, false⟩
    | none =>
      ⟨⟨(k, s.nextRun) :: s.inflight, s.nextRun + 1⟩, some s.nextRun, true⟩
  | .settle k _ =>
    ⟨⟨s.inflight.filter (fun e => !(e.1 = k : Bool)), s.nextRun⟩, none, false⟩

def dedupExec (s : DedupState) : List DedupEvent → DedupState
  | [] => s
  | e :: es => dedupExec (dedupStep s e).state es

/-- The per-event observations along a trace: which run each event joined
and whether it started a resolver run. -/
def dedupTrace (s : DedupState) : List DedupEvent → List (DedupEvent × Option Nat × Bool)
  | [] => []
  | e :: es =>
    let o := dedupStep s e
    (e, o.joined, o.started) :: dedupTrace o.state es

/-! ## `/feed` handler (server.mjs lines 2324-2458)

Inputs are the fetched article list and the `articles_translations`
table; `getBestArticleTranslation` is the fallback lookup the handler
performs per article. The output records, besides the cards, the two
observable side channels named by the spec: background jobs enqueued via
`_enqueuePersist` and a response header listing pending ids. The handler
in the source does neither, so the embedding produces them constantly
empty; `getClusterTextInLangNonBlocking`, which does enqueue, is not
reachable from `/feed`. Entity decoding (`decodeHtmlEntities`) and
direction lookup (`dirFor`) are presentation helpers passed in as opaque
functions. -/

structure FArticle where
  id : String
  title : String
  snippet : String
  lang : String
  published_at : String
deriving DecidableEq, Repr

structure ATr where
  article_id : String
  dst_lang : String
  headline : String
  summary_ai : String
deriving DecidableEq, Repr

/-- `getBestArticleTranslation(articleId, target)`: exact language, then
base language, then any row at all. -/
def getBestArticleTranslation (trs : List ATr) (aid target : String) : Option ATr :=
  let tryGet := fun (lang : String) =>
    trs.find? (fun t => t.article_id = aid && t.dst_lang = lang)
  match tryGet target with
  | some t => some t
  | none =>
    match (if baseOf target ≠ "" && baseOf target ≠ target
           then tryGet (baseOf target) else none) with
    | some t => some t
    | none => trs.find? (fun t => t.article_id = aid)

structure Card where
  id : String
  title : String
  summary : String
  language : String
  dir : String
  is_translated : Bool
  translated_from : Option String
  translation_status : String
deriving DecidableEq, Repr

structure FeedOut where
  cards : List Card
  scheduledJobs : List (String × String)
  pendingHeader : Option String
deriving DecidableEq, Repr

/-- The placeholder card of the non-strict branch. -/
def pendingCard (dir : String → String) (target : String) (a : FArticle) : Card :=
  ⟨a.id, a.title, a.snippet, target, dir target, false, none, "pending"⟩

/-- The ready card assembled from a translation row. -/
def readyCard (decode : String → String) (dir : String → String)
    (target : String) (a : FArticle) (tr : ATr) : Card :=
  let used := normalizeBcp47 (if tr.dst_lang = "" then target else tr.dst_lang)
  let isTranslated := if a.lang ≠ "" then decide (baseOf used ≠ baseOf a.lang) else true
  ⟨a.id,
    decode (if tr.headline ≠ "" then tr.headline else a.title),
    decode (if tr.summary_ai ≠ "" then tr.summary_ai else a.snippet),
    used, dir used, isTranslated,
    if isTranslated then (if a.lang = "" then none else some a.lang) else none,
    "ready"⟩

/-- The per-article loop of the handler. -/
def feedCards (decode dir : String → String) (strict : Bool) (target : String)
    (trs : List ATr) : List FArticle → List Card
  | [] => []
  | a :: rest =>
    match getBestArticleTranslation trs a.id target with
    | none =>
      if strict then feedCards decode dir strict target trs rest
      else pendingCard dir target a :: feedCards decode dir strict target trs rest
    | some tr => readyCard decode dir target a tr :: feedCards decode dir strict target trs rest

/-- `parseInt(req.query.limit) || 20`: an absent or unparsable limit is
`none`, and a parsed `0` is falsy, so both yield the default `20`. -/
def parsedLimit (limitQ : Option Nat) : Nat :=
  match limitQ with
  | none => 20
  | some n => if n = 0 then 20 else n

/-- `GET /feed`: limit parsing (`Math.min(parseInt(...) || 20, 100)`),
the strict-mode item cap of 8, and the card loop. -/
def feedHandler (decode dir : String → String) (strict : Bool)
    (limitQ : Option Nat) (target : String) (arts : List FArticle)
    (trs : List ATr) : FeedOut :=
  let limit := min (parsedLimit limitQ) 100
  let effectiveLimit := if strict then min limit 8 else limit
  { cards := feedCards decode dir strict target trs (arts.take effectiveLimit)
    scheduledJobs := []
    pendingHeader := none }

/-! ## `POST /translate/batch` (server.mjs lines 2796-2883)

Worker outcomes are modelled per id: `ok` is a resolved payload, `noRes`
is a resolver that returned `null`, `err` is a rejection or a per-item
timeout; the latter two both push the id onto `failed`. The bounded
worker pool consumes the queue in order; since every id is processed
exactly once and the claims concern membership and counts, the pool is
modelled by the sequential consumption of the queue. -/

inductive ItemOutcome where
  | ok (title summary : String) (isTr : Bool) (trFrom : Option String)
  | noRes
  | err
deriving DecidableEq, Repr

structure BatchItem where
  id : String
  status : String
  title : String
  summary : String
  language : String
  is_translated : Bool
  translated_from : Option String
  dir : String
deriving DecidableEq, Repr

structure BatchOut where
  results : List BatchItem
  failed : List String
  dispatched : List String
deriving DecidableEq, Repr

/-- `[...new Set(ids)]`: first occurrences in order. -/
def dedupFirst : List String → List String
  | [] => []
  | x :: xs => x :: (dedupFirst xs).filter (fun y => !(y = x : Bool))

/-- The worker body: note the source computes
`is_translated: ensured.is_translated || true`, which is identically
`true`. -/
def processBatch (outcome : String → ItemOutcome) (target : String)
    (dir : String → String) : List String → List BatchItem × List String
  | [] => ([], [])
  | id :: rest =>
    let (rs, fs) := processBatch outcome target dir rest
    match outcome id with
    | .ok t s itr tf =>
      (⟨id, "ready", t, s, target, itr || true, tf, dir target⟩ :: rs, fs)
    | .noRes => (rs, id :: fs)
    | .err => (rs, id :: fs)

/-- The body of the `/translate/batch` handler once the effective id list
is computed: short-circuit the empty list, deduplicate, cap at 20,
process. -/
def batchCore (outcome : String → ItemOutcome) (dir : String → String)
    (target : String) (ids : List String) : BatchOut :=
  if ids = [] then ⟨[], [], []⟩
  else
    let uniqueIds := (dedupFirst ids).take 20
    let (rs, fs) := processBatch outcome target dir uniqueIds
    ⟨rs, fs, uniqueIds⟩

/-- The effective id list of the handler: pick `ids` or `clusterIds` and
drop falsy entries. -/
def effectiveIds (idsBody clusterIdsBody : List String) : List String :=
  (if idsBody ≠ [] then idsBody else clusterIdsBody).filter
    (fun s => !(s = "" : Bool))

/-- The `/translate/batch` handler after the rate limiter. -/
def batchHandler (outcome : String → ItemOutcome) (dir : String → String)
    (target : String) (idsBody clusterIdsBody : List String) : BatchOut :=
  batchCore outcome dir target (effectiveIds idsBody clusterIdsBody)

/-! ## Per-IP token bucket (`_takeToken`, server.mjs lines 2771-2794)

`_ipBuckets` maps an IP to a record `{windowStart, tokens}`; every call
goes through `_takeToken(ip)` which touches only that entry of the map,
so the model follows one bucket. `tokens` is an `Int` to let the claimed
non-negativity be a statement rather than an artefact of `Nat`
subtraction. -/

def hourMs : Nat := 3600000

structure Bucket where
  windowStart : Nat
  tokens : Int
deriving DecidableEq, Repr

/-- `_takeToken`: missing entry means a fresh full bucket; an elapsed
window resets; zero or fewer tokens denies; otherwise grant and
decrement. -/
def takeToken (limit : Nat) (now : Nat) (b : Option Bucket) : Bool × Bucket :=
  let r0 := b.getD ⟨now, (limit : Int)⟩
  let r1 := if now - r0.windowStart ≥ hourMs then ⟨now, (limit : Int)⟩ else r0
  if r1.tokens ≤ 0 then (false, r1)
  else (true, ⟨r1.windowStart, r1.tokens - 1⟩)

/-- A sequence of requests from one IP at the given times. -/
def takeRun (limit : Nat) : List Nat → Bucket → List Bool × Bucket
  | [], b => ([], b)
  | t :: ts, b =>
    let (g, b1) := takeToken limit t (some b)
    let (gs, b2) := takeRun limit ts b1
    (g :: gs, b2)

/-! ## Invariants -/

/-- Number of rows that are current for a given `(cluster_id, lang)`. -/
def currentCount (db : DB) (cid : Nat) (lang : String) : Nat :=
  (db.rows.filter (isCurrentFor cid lang)).length

/-- The `cluster_ai` invariant of the spec: at most one current row per
`(cluster_id, lang)` pair. -/
def AtMostOneCurrent (db : DB) : Prop :=
  ∀ cid lang, currentCount db cid lang ≤ 1

/-- Executable pairwise check: no two rows of the list are both current
for the same `(cluster_id, lang)` pair. -/
def pairwiseOkRows : List Row → Bool
  | [] => true
  | r :: rest =>
    rest.all (fun s => !(r.is_current && s.is_current &&
      r.cluster_id = s.cluster_id && r.lang = s.lang)) && pairwiseOkRows rest

/-- Decidable strengthening used to discharge `AtMostOneCurrent` on
concrete databases. -/
def CurrentPairwise (db : DB) : Prop := pairwiseOkRows db.rows = true

/-! ## Concrete fixtures for witnesses and counterexamples -/

/-- English pivot row of the witness cluster. -/
def rowEn : Row := ⟨0, 1, "en", "Hello", "World", "Story", true, 10, "", none⟩

/-- A fresh German row: younger than the pivot, fields differing, no
marker. -/
def rowDe : Row := ⟨1, 1, "de", "Hallo", "Welt", "Geschichte", true, 20, "", none⟩

/-- A stale German row: older than the pivot and without a matching
signature. -/
def rowDeStale : Row := ⟨1, 1, "de", "Alt1", "Alt2", "Alt3", true, 5, "", none⟩

def dbFresh : DB := ⟨[rowEn, rowDe], 2, 30⟩

def dbPivotOnly : DB := ⟨[rowEn], 1, 30⟩

def dbStale : DB := ⟨[rowEn, rowDeStale], 2, 30⟩

/-- A well-behaved translation environment: constant digest, per-field
suffix `X`, inserts succeeding, updates succeeding. -/
def envTr : Env :=
  ⟨fun _ => "SIG",
   fun q => ⟨q.fields.title ++ "X", q.fields.summary ++ "X", q.fields.details ++ "X"⟩,
   .ok, false⟩

/-- An environment whose translation outcome carries the stub fallback
marker (exactly what the source stores when the provider is exhausted or
unconfigured). -/
def envMark : Env :=
  ⟨fun _ => "SIG",
   fun q => ⟨q.fields.title ++ " [translated]", q.fields.summary ++ "X",
     q.fields.details ++ "X"⟩,
   .ok, false⟩

/-- A translating environment whose `cluster_ai` inserts always fail. -/
def envNeuFail : Env :=
  ⟨fun _ => "SIG", fun _ => ⟨"Neu1", "Neu2", "Neu3"⟩, .alwaysFail, false⟩

/-- The same translation outcome with inserts succeeding. -/
def envNeuOk : Env :=
  ⟨fun _ => "SIG", fun _ => ⟨"Neu1", "Neu2", "Neu3"⟩, .ok, false⟩

/-- The same translation outcome with the `pivot_hash` insert attempt
failing and only the hash-less retry succeeding. -/
def envNeuNoHash : Env :=
  ⟨fun _ => "SIG", fun _ => ⟨"Neu1", "Neu2", "Neu3"⟩, .noHash, false⟩

/-- The same translation outcome with inserts succeeding but every
`is_current` update failing. -/
def envNeuUpdFail : Env :=
  ⟨fun _ => "SIG", fun _ => ⟨"Neu1", "Neu2", "Neu3"⟩, .ok, true⟩

/-- A current English row carrying the original (untranslated) body, as
tagged by the feeder with `#body=orig` in its model string. -/
def rowOrig : Row := ⟨0, 1, "en", "Hello", "World", "Story", true, 10, "orig#body=orig", none⟩

def dbOrig : DB := ⟨[rowOrig], 1, 30⟩

/-- The outcome of `translateNow envTr rowEn "en" "de"`: the pivot
fields with the suffix `X`, re-housed under the destination language. -/
def rowTrDe : Row := ⟨0, 1, "de", "HelloX", "WorldX", "StoryX", true, 0, "", none⟩

/-- The single combined translation request that produces `rowTrDe`. -/
def reqC3 : TransReq := ⟨⟨"Hello", "World", "Story"⟩, "en", "de"⟩

/-- Translation cache configuration for the chunking scenarios: marker
on, provider configured, no retries, chunk threshold 5, chunk max 4. -/
def cfgChunk : TCfg := ⟨false, true, 0, 5, 4, 500⟩

def provNone : Nat → String → Option String := fun _ _ => none

def dbcNone : TKey → Option String := fun _ => none

def tstate0 : TState := ⟨[], 0, []⟩

/-- A provider stub that translates every chunk to a fixed-suffix token
(first attempt always succeeds). -/
def provTok : Nat → String → Option String := fun _ s => some (s ++ "|tr")

def gTok : String → String := fun s => s ++ "|tr"

/-- Witness article and empty translation table for the feed scenarios. -/
def artA : FArticle := ⟨"a1", "T1", "S1", "en", "2024-01-01"⟩

def artB : FArticle := ⟨"b2", "T2", "S2", "en", "2024-01-02"⟩

def trB : ATr := ⟨"b2", "de", "H2", "Z2"⟩

def decodeId : String → String := fun s => s

def dirLtr : String → String := fun _ => "ltr"

/-- Twenty-one pairwise distinct cluster ids. -/
def ids21 : List String :=
  ["c01", "c02", "c03", "c04", "c05", "c06", "c07", "c08", "c09", "c10",
   "c11", "c12", "c13", "c14", "c15", "c16", "c17", "c18", "c19", "c20", "c21"]

def outcomeAllFail : String → ItemOutcome := fun _ => .err

def outcomeMix : String → ItemOutcome := fun id =>
  if id = "x1" then .ok "Titre" "Sommaire" true (some "en")
  else if id = "x2" then .noRes
  else .err

/-! ## Theorems -/

/-- Window-local invariant of the token bucket: as long as every request
falls inside the window opened at `w`, the window start is unchanged and
the token count is the initial count minus the number of grants. -/
theorem takeRun_window_inv (limit w : Nat) :
    ∀ (times : List Nat) (tok : Int), (∀ t ∈ times, t - w < hourMs) → 0 ≤ tok →
      (takeRun limit times ⟨w, tok⟩).2.windowStart = w ∧
      (takeRun limit times ⟨w, tok⟩).2.tokens =
        tok - ((takeRun limit times ⟨w, tok⟩).1.count true) ∧
      ((takeRun limit times ⟨w, tok⟩).1.count true : Int) ≤ tok := by
  intro times
  induction times with
  | nil => intro tok _ htok; simpa [takeRun] using htok
  | cons t ts ih =>
    intro tok hin htok
    have ht : ¬(t - w ≥ hourMs) := by
      have := hin t (List.mem_cons_self t ts)
      omega
    have hts : ∀ u ∈ ts, u - w < hourMs := fun u hu => hin u (List.mem_cons_of_mem t hu)
    by_cases hz : tok ≤ 0
    · have htok0 : tok = 0 := le_antisymm hz htok
      subst htok0
      have hstep : takeToken limit t (some ⟨w, 0⟩) = (false, ⟨w, 0⟩) := by
        simp [takeToken, ht]
      obtain ⟨h1, h2, h3⟩ := ih 0 hts le_rfl
      simp only [takeRun, hstep]
      simpa [List.count_cons] using And.intro h1 (And.intro h2 h3)
    · have hstep : takeToken limit t (some ⟨w, tok⟩) = (true, ⟨w, tok - 1⟩) := by
        simp [takeToken, ht, hz]
      obtain ⟨h1, h2, h3⟩ := ih (tok - 1) hts (by omega)
      have hcons : takeRun limit (t :: ts) ⟨w, tok⟩ =
          (true :: (takeRun limit ts ⟨w, tok - 1⟩).1, (takeRun limit ts ⟨w, tok - 1⟩).2) := by
        simp [takeRun, hstep]
      rw [hcons]
      refine ⟨h1, ?_, ?_⟩
      · simp only [List.count_cons, beq_self_eq_true, if_true, Nat.cast_add, Nat.cast_one]
        omega
      · simp only [List.count_cons, beq_self_eq_true, if_true, Nat.cast_add, Nat.cast_one]
        omega

/-- Claim C10: the per-IP token bucket of the batch endpoint never drops
below zero tokens, grants at most `RATE_LIMIT_BATCH` requests inside one
window (each grant decrementing the count by exactly one, so the token
count always equals the limit minus the grants), denies every further
in-window request once the grants are exhausted, and on the first request
at or past the hour boundary resets the window and restores the count to
the configured limit (immediately spending one token on that grant). -/
theorem c10_token_bucket_window (limit w t2 t3 : Nat) (times : List Nat)
    (hin : ∀ t ∈ times, t - w < hourMs) :
    ((takeRun limit times ⟨w, (limit : Int)⟩).1.count true) ≤ limit ∧
    (takeRun limit times ⟨w, (limit : Int)⟩).2.windowStart = w ∧
    (takeRun limit times ⟨w, (limit : Int)⟩).2.tokens =
      (limit : Int) - ((takeRun limit times ⟨w, (limit : Int)⟩).1.count true) ∧
    0 ≤ (takeRun limit times ⟨w, (limit : Int)⟩).2.tokens ∧
    ((takeRun limit times ⟨w, (limit : Int)⟩).1.count true = limit → t2 - w < hourMs →
      (takeToken limit t2 (some (takeRun limit times ⟨w, (limit : Int)⟩).2)).1 = false) ∧
    (0 < limit → hourMs ≤ t3 - w →
      (takeToken limit t3 (some (takeRun limit times ⟨w, (limit : Int)⟩).2)).1 = true ∧
      (takeToken limit t3 (some (takeRun limit times ⟨w, (limit : Int)⟩).2)).2 =
        ⟨t3, (limit : Int) - 1⟩) := by
  obtain ⟨h1, h2, h3⟩ := takeRun_window_inv limit w times (limit : Int) hin (by positivity)
  have hcount : ((takeRun limit times ⟨w, (limit : Int)⟩).1.count true) ≤ limit := by
    exact_mod_cast h3
  refine ⟨hcount, h1, h2, by omega, ?_, ?_⟩
  · intro hex ht2
    have hzero : (takeRun limit times ⟨w, (limit : Int)⟩).2.tokens = 0 := by
      rw [h2, hex]; ring
    simp [takeToken, h1, Nat.not_le.mpr ht2, hzero]
  · intro hlim ht3
    constructor
    · simp only [takeToken, h1, Option.getD_some]
      rw [h1] at *
      simp only [if_pos ht3]
      have : ¬((limit : Int) ≤ 0) := by exact_mod_cast not_le.mpr hlim
      simp [this]
    · simp only [takeToken, h1, Option.getD_some]
      rw [h1] at *
      simp only [if_pos ht3]
      have : ¬((limit : Int) ≤ 0) := by exact_mod_cast not_le.mpr hlim
      simp [this]

/-- Witness for C10: limit 2, window at 0, three in-window requests; the
theorem yields at most 2 grants and a non-negative final count, and
direct evaluation confirms the third request is denied. -/
theorem c10_witness :
    ((takeRun 2 [1, 2, 3] ⟨0, (2 : Int)⟩).1.count true ≤ 2 ∧
      0 ≤ (takeRun 2 [1, 2, 3] ⟨0, (2 : Int)⟩).2.tokens) ∧
    (takeRun 2 [1, 2, 3] ⟨0, (2 : Int)⟩).1 = [true, true, false] := by
  refine ⟨?_, by decide⟩
  obtain ⟨a, _, _, d, _, _⟩ :=
    c10_token_bucket_window 2 0 4 hourMs [1, 2, 3] (by decide)
  exact ⟨a, d⟩

/-- Every processed id lands in exactly one of the two result lists. -/
theorem processBatch_partition (outcome : String → ItemOutcome) (target : String)
    (dir : String → String) :
    ∀ l : List String,
      (processBatch outcome target dir l).1.length +
        (processBatch outcome target dir l).2.length = l.length := by
  intro l
  induction l with
  | nil => simp [processBatch]
  | cons x xs ih =>
    cases h : outcome x <;> simp [processBatch, h] <;> omega

/-- `dedupFirst` keeps exactly the distinct values, in first-occurrence
order. -/
theorem dedupFirst_nodup : ∀ l : List String, (dedupFirst l).Nodup := by
  intro l
  induction l with
  | nil => simp [dedupFirst]
  | cons x xs ih =>
    simp only [dedupFirst, List.nodup_cons]
    refine ⟨?_, List.Nodup.filter _ ih⟩
    intro hx
    have := (List.mem_filter.mp hx).2
    simp at this

/-- Core batch semantics over the effective id list. -/
theorem batchCore_spec (outcome : String → ItemOutcome) (dir : String → String)
    (target : String) (ids : List String) :
    (ids = [] → batchCore outcome dir target ids = ⟨[], [], []⟩) ∧
    (batchCore outcome dir target ids).results.length +
        (batchCore outcome dir target ids).failed.length =
      (batchCore outcome dir target ids).dispatched.length ∧
    (batchCore outcome dir target ids).dispatched = (dedupFirst ids).take 20 ∧
    (batchCore outcome dir target ids).dispatched.Nodup ∧
    ((dedupFirst ids).length ≤ 20 →
      (batchCore outcome dir target ids).results.length +
          (batchCore outcome dir target ids).failed.length =
        (dedupFirst ids).length) := by
  by_cases hempty : ids = []
  · subst hempty
    refine ⟨fun _ => rfl, ?_, ?_, ?_, ?_⟩ <;> simp [batchCore, dedupFirst]
  · have hbh : batchCore outcome dir target ids =
        ⟨(processBatch outcome target dir ((dedupFirst ids).take 20)).1,
          (processBatch outcome target dir ((dedupFirst ids).take 20)).2,
          (dedupFirst ids).take 20⟩ := by
      simp [batchCore, hempty]
    refine ⟨fun h => absurd h hempty, ?_, ?_, ?_, ?_⟩
    · rw [hbh]
      exact processBatch_partition outcome target dir _
    · rw [hbh]
    · rw [hbh]
      exact (dedupFirst_nodup ids).sublist (List.take_sublist _ _)
    · intro hle
      rw [hbh]
      simp only
      rw [processBatch_partition outcome target dir _]
      rw [List.take_of_length_le hle]

/-- Claim C9 (amended): the batch handler deduplicates before dispatch
and caps the dispatch list at 20 ids; an empty (or all-falsy) id list is
an immediate empty success with nothing dispatched; every dispatched id
ends up in exactly one of `results`/`failed`, so the two lengths sum to
the dispatched count, which equals the unique input count whenever at
most 20 unique ids are supplied. -/
theorem c9_batch_semantics (outcome : String → ItemOutcome) (dir : String → String)
    (target : String) (idsBody clusterIdsBody : List String) :
    (effectiveIds idsBody clusterIdsBody = [] →
      batchHandler outcome dir target idsBody clusterIdsBody = ⟨[], [], []⟩) ∧
    (batchHandler outcome dir target idsBody clusterIdsBody).results.length +
        (batchHandler outcome dir target idsBody clusterIdsBody).failed.length =
      (batchHandler outcome dir target idsBody clusterIdsBody).dispatched.length ∧
    (batchHandler outcome dir target idsBody clusterIdsBody).dispatched =
      (dedupFirst (effectiveIds idsBody clusterIdsBody)).take 20 ∧
    (batchHandler outcome dir target idsBody clusterIdsBody).dispatched.Nodup ∧
    ((dedupFirst (effectiveIds idsBody clusterIdsBody)).length ≤ 20 →
      (batchHandler outcome dir target idsBody clusterIdsBody).results.length +
          (batchHandler outcome dir target idsBody clusterIdsBody).failed.length =
        (dedupFirst (effectiveIds idsBody clusterIdsBody)).length) :=
  batchCore_spec outcome dir target (effectiveIds idsBody clusterIdsBody)

/-- Witness for C9: five raw ids containing one duplicate and one falsy
entry dispatch three unique ids, one resolving and two failing. -/
theorem c9_witness :
    ((batchHandler outcomeMix dirLtr "fr" ["x1", "x2", "x1", "", "x3"] []).results.length +
      (batchHandler outcomeMix dirLtr "fr" ["x1", "x2", "x1", "", "x3"] []).failed.length =
      (batchHandler outcomeMix dirLtr "fr" ["x1", "x2", "x1", "", "x3"] []).dispatched.length) ∧
    (batchHandler outcomeMix dirLtr "fr" ["x1", "x2", "x1", "", "x3"] []).dispatched =
      ["x1", "x2", "x3"] ∧
    (batchHandler outcomeMix dirLtr "fr" ["x1", "x2", "x1", "", "x3"] []).results.length = 1 ∧
    (batchHandler outcomeMix dirLtr "fr" ["x1", "x2", "x1", "", "x3"] []).failed = ["x2", "x3"] := by
  refine ⟨(c9_batch_semantics outcomeMix dirLtr "fr" ["x1", "x2", "x1", "", "x3"] []).2.1,
    by decide, by decide, by decide⟩

/-- Counterexample for C9 as frozen: with 21 distinct ids the two lists
sum to 20, not to the unique input count 21, because the handler caps the
dispatch list (`.slice(0, 20)`). -/
theorem c9_counterexample :
    (dedupFirst ids21).length = 21 ∧
    (batchHandler outcomeAllFail dirLtr "fr" ids21 []).results.length +
      (batchHandler outcomeAllFail dirLtr "fr" ids21 []).failed.length = 20 := by
  decide

/-- Lookup of a key is untouched by prepending an entry for another key. -/
theorem lookupKey_cons_ne (m : List (String × Nat)) (k k' : String) (r : Nat)
    (h : k' ≠ k) : lookupKey ((k', r) :: m) k = lookupKey m k := by
  simp [lookupKey, List.find?, h]

/-- Lookup in a cons cell. -/
theorem lookupKey_cons (x : String × Nat) (m : List (String × Nat)) (k : String) :
    lookupKey (x :: m) k = if x.1 = k then some x.2 else lookupKey m k := by
  by_cases h : x.1 = k <;> simp [lookupKey, List.find?_cons, h]

/-- Deleting the entries of another key preserves a lookup. -/
theorem lookupKey_filter_ne (k k' : String) (h : k ≠ k') :
    ∀ m : List (String × Nat),
      lookupKey (m.filter (fun e => !(e.1 = k' : Bool))) k = lookupKey m k := by
  intro m
  induction m with
  | nil => rfl
  | cons e es ih =>
    rw [List.filter_cons]
    by_cases he : e.1 = k'
    · have hek : ¬(e.1 = k) := by
        rw [he]
        exact fun hk => h hk.symm
      rw [if_neg (by simp [he])]
      rw [ih, lookupKey_cons, if_neg hek]
    · rw [if_pos (by simp [he])]
      rw [lookupKey_cons, lookupKey_cons, ih]

/-- Deleting a key really removes it. -/
theorem lookupKey_filter_self (k : String) (m : List (String × Nat)) :
    lookupKey (m.filter (fun e => !(e.1 = k : Bool))) k = none := by
  simp only [lookupKey, Option.map_eq_none']
  apply List.find?_eq_none.mpr
  intro e he
  have := (List.mem_filter.mp he).2
  simp at this
  simp [this]

/-- While the run `r` registered for key `k` is pending (no settlement of
`k` occurs), every event leaves the entry in place, every caller for `k`
joins exactly `r`, and no event starts another resolver run for `k`. -/
theorem dedup_pending_inv (k : String) (r : Nat) :
    ∀ (mid : List DedupEvent) (s : DedupState),
      (∀ b, DedupEvent.settle k b ∉ mid) →
      lookupKey s.inflight k = some r →
      lookupKey (dedupExec s mid).inflight k = some r ∧
      (∀ x ∈ dedupTrace s mid, x.1 = DedupEvent.call k →
        x.2.1 = some r ∧ x.2.2 = false) := by
  intro mid
  induction mid with
  | nil => intro s _ hs; exact ⟨hs, by simp [dedupTrace]⟩
  | cons e es ih =>
    intro s hmid hs
    have hes : ∀ b, DedupEvent.settle k b ∉ es := fun b hb =>
      hmid b (List.mem_cons_of_mem e hb)
    have hstep : lookupKey (dedupStep s e).state.inflight k = some r := by
      cases e with
      | call k' =>
        by_cases hk : k' = k
        · subst hk
          simp [dedupStep, hs]
        · cases hfind : lookupKey s.inflight k' with
          | some r' => simpa [dedupStep, hfind] using hs
          | none =>
            simp only [dedupStep, hfind]
            rw [lookupKey_cons_ne _ _ _ _ hk]
            exact hs
      | settle k' b =>
        have hk : k ≠ k' := by
          intro hkk
          exact hmid b (by rw [hkk]; exact List.mem_cons_self _ _)
        simp only [dedupStep]
        rw [lookupKey_filter_ne k k' hk]
        exact hs
    obtain ⟨hrest, htr⟩ := ih (dedupStep s e).state hes hstep
    refine ⟨hrest, ?_⟩
    intro x hx hcall
    rcases List.mem_cons.mp hx with hhead | htail
    · subst hhead
      have he : e = DedupEvent.call k := hcall
      subst he
      constructor <;> simp [dedupStep, hs]
    · exact htr x htail hcall

/-- Key uniqueness of the in-flight map is preserved by every event. -/
theorem dedup_nodup_inv :
    ∀ (evs : List DedupEvent) (s : DedupState),
      (s.inflight.map Prod.fst).Nodup →
      ((dedupExec s evs).inflight.map Prod.fst).Nodup := by
  intro evs
  induction evs with
  | nil => intro s hs; exact hs
  | cons e es ih =>
    intro s hs
    apply ih
    cases e with
    | call k =>
      cases hfind : lookupKey s.inflight k with
      | some r => simpa [dedupStep, hfind] using hs
      | none =>
        simp only [dedupStep, hfind, List.map_cons, List.nodup_cons]
        refine ⟨?_, hs⟩
        intro hk
        obtain ⟨e', he', hfst⟩ := List.mem_map.mp hk
        have : s.inflight.find? (fun x => x.1 = k) = none := by
          simpa [lookupKey] using hfind
        have := List.find?_eq_none.mp this e' he'
        simp [hfst] at this
    | settle k b =>
      simp only [dedupStep]
      exact hs.sublist ((List.filter_sublist _).map Prod.fst)

/-- Claim C2: one resolver run at a time per `(clusterId, targetLang)`
key. The first caller for an absent key starts a run and registers it;
every caller arriving while that run is pending joins the very same run
(hence observes the same value or the same failure) and starts no second
run; settlement deletes the entry whether the run succeeded or failed,
and the next caller afterwards starts a fresh run; the map never holds
two entries for one key. -/
theorem c2_dedup_single_flight (s0 : DedupState) (k : String)
    (mid : List DedupEvent) (ok : Bool)
    (h0 : lookupKey s0.inflight k = none)
    (hmid : ∀ b, DedupEvent.settle k b ∉ mid) :
    ((dedupStep s0 (.call k)).started = true ∧
      (dedupStep s0 (.call k)).joined = some s0.nextRun) ∧
    (∀ x ∈ dedupTrace (dedupStep s0 (.call k)).state mid,
      x.1 = DedupEvent.call k → x.2.1 = some s0.nextRun ∧ x.2.2 = false) ∧
    lookupKey ((dedupStep (dedupExec (dedupStep s0 (.call k)).state mid)
      (.settle k ok)).state).inflight k = none ∧
    (dedupStep ((dedupStep (dedupExec (dedupStep s0 (.call k)).state mid)
      (.settle k ok)).state) (.call k)).started = true ∧
    (∀ (evs : List DedupEvent) (s : DedupState),
      (s.inflight.map Prod.fst).Nodup →
      ((dedupExec s evs).inflight.map Prod.fst).Nodup) := by
  have hcall : (dedupStep s0 (.call k)).state.inflight = (k, s0.nextRun) :: s0.inflight ∧
      (dedupStep s0 (.call k)).started = true ∧
      (dedupStep s0 (.call k)).joined = some s0.nextRun := by
    simp [dedupStep, h0]
  have hlook : lookupKey (dedupStep s0 (.call k)).state.inflight k = some s0.nextRun := by
    rw [hcall.1]
    simp [lookupKey, List.find?]
  obtain ⟨hpend, htrace⟩ := dedup_pending_inv k s0.nextRun mid
    (dedupStep s0 (.call k)).state hmid hlook
  have hsettle : lookupKey ((dedupStep (dedupExec (dedupStep s0 (.call k)).state mid)
      (.settle k ok)).state).inflight k = none := by
    simp only [dedupStep]
    exact lookupKey_filter_self k _
  refine ⟨⟨hcall.2.1, hcall.2.2⟩, htrace, hsettle, ?_, dedup_nodup_inv⟩
  generalize hs2 : (dedupStep (dedupExec (dedupStep s0 (.call k)).state mid)
    (.settle k ok)).state = s2 at hsettle ⊢
  simp [dedupStep, hsettle]

/-- Witness for C2: a concrete trace where two further callers join the
pending run, the settlement is a failure, and the next call starts run 1
instead of run 0. -/
theorem c2_witness :
    ((dedupStep ⟨[], 0⟩ (.call "c1|de")).started = true ∧
      (dedupStep ⟨[], 0⟩ (.call "c1|de")).joined = some 0) ∧
    (∀ x ∈ dedupTrace (dedupStep ⟨[], 0⟩ (.call "c1|de")).state
        [DedupEvent.call "c1|de", DedupEvent.call "c2|de", DedupEvent.call "c1|de"],
      x.1 = DedupEvent.call "c1|de" → x.2.1 = some 0 ∧ x.2.2 = false) ∧
    lookupKey ((dedupStep (dedupExec (dedupStep ⟨[], 0⟩ (.call "c1|de")).state
        [DedupEvent.call "c1|de", DedupEvent.call "c2|de", DedupEvent.call "c1|de"])
        (.settle "c1|de" false)).state).inflight "c1|de" = none ∧
    (dedupStep ((dedupStep (dedupExec (dedupStep ⟨[], 0⟩ (.call "c1|de")).state
        [DedupEvent.call "c1|de", DedupEvent.call "c2|de", DedupEvent.call "c1|de"])
        (.settle "c1|de" false)).state) (.call "c1|de")).started = true :=
  let h := c2_dedup_single_flight ⟨[], 0⟩ "c1|de"
    [DedupEvent.call "c1|de", DedupEvent.call "c2|de", DedupEvent.call "c1|de"]
    false (by decide) (by decide)
  ⟨h.1, h.2.1, h.2.2.1, h.2.2.2.1⟩

/-- In strict mode every emitted card is ready (articles without any
translation row are omitted, never shown as placeholders). -/
theorem feedCards_strict_ready (decode dir : String → String) (target : String)
    (trs : List ATr) :
    ∀ l : List FArticle, ∀ c ∈ feedCards decode dir true target trs l,
      c.translation_status = "ready" ∧
      ∃ a ∈ l, ∃ tr, getBestArticleTranslation trs a.id target = some tr ∧
        c = readyCard decode dir target a tr := by
  intro l
  induction l with
  | nil => intro c hc; simp [feedCards] at hc
  | cons a rest ih =>
    intro c hc
    rw [feedCards] at hc
    cases htr : getBestArticleTranslation trs a.id target with
    | none =>
      rw [htr] at hc
      simp only [if_true] at hc
      obtain ⟨h1, a', ha', tr, htr', hc'⟩ := ih c hc
      exact ⟨h1, a', List.mem_cons_of_mem a ha', tr, htr', hc'⟩
    | some tr =>
      rw [htr] at hc
      rcases List.mem_cons.mp hc with hhead | htail
      · subst hhead
        exact ⟨rfl, a, List.mem_cons_self a rest, tr, htr, rfl⟩
      · obtain ⟨h1, a', ha', tr', htr', hc'⟩ := ih c htail
        exact ⟨h1, a', List.mem_cons_of_mem a ha', tr', htr', hc'⟩

/-- In non-strict mode an article without any translation row yields its
pending placeholder card. -/
theorem feedCards_pending_mem (decode dir : String → String) (target : String)
    (trs : List ATr) :
    ∀ l : List FArticle, ∀ a ∈ l,
      getBestArticleTranslation trs a.id target = none →
      pendingCard dir target a ∈ feedCards decode dir false target trs l := by
  intro l
  induction l with
  | nil => intro a ha; simp at ha
  | cons b rest ih =>
    intro a ha hnone
    rw [feedCards]
    rcases List.mem_cons.mp ha with hhead | htail
    · subst hhead
      rw [hnone]
      simp only [Bool.false_eq_true, if_false]
      exact List.mem_cons_self _ _
    · cases htr : getBestArticleTranslation trs b.id target with
      | none =>
        simp only [Bool.false_eq_true, if_false]
        exact List.mem_cons_of_mem _ (ih a htail hnone)
      | some tr =>
        exact List.mem_cons_of_mem _ (ih a htail hnone)

/-- Claim C8 (amended): the `/feed` handler schedules no background
resolution jobs and sets no pending-ids header. In strict mode an
article with no persisted translation row (in any language) is omitted —
every card in the strict response is a ready card derived from a found
row; in non-strict mode such an article is included as a placeholder
card marked pending carrying the untranslated title and snippet. -/
theorem c8_feed_strict_vs_nonstrict (decode dir : String → String)
    (limitQ : Option Nat) (target : String) (arts : List FArticle)
    (trs : List ATr) :
    (∀ strict, (feedHandler decode dir strict limitQ target arts trs).scheduledJobs = [] ∧
      (feedHandler decode dir strict limitQ target arts trs).pendingHeader = none) ∧
    (∀ c ∈ (feedHandler decode dir true limitQ target arts trs).cards,
      c.translation_status = "ready" ∧
      ∃ a ∈ arts.take (min (min (parsedLimit limitQ) 100) 8), ∃ tr,
        getBestArticleTranslation trs a.id target = some tr ∧
        c = readyCard decode dir target a tr) ∧
    (∀ a ∈ arts.take (min (parsedLimit limitQ) 100),
      getBestArticleTranslation trs a.id target = none →
      pendingCard dir target a ∈ (feedHandler decode dir false limitQ target arts trs).cards) := by
  refine ⟨fun strict => ⟨rfl, rfl⟩, ?_, ?_⟩
  · intro c hc
    exact feedCards_strict_ready decode dir target trs _ c hc
  · intro a ha hnone
    exact feedCards_pending_mem decode dir target trs _ a ha hnone

/-- Witness for C8: in strict mode the untranslated article `a1` is
omitted while `b2` is served ready; in non-strict mode `a1` appears as a
pending placeholder. -/
theorem c8_witness :
    (∀ c ∈ (feedHandler decodeId dirLtr true (some 10) "de" [artA, artB] [trB]).cards,
      c.translation_status = "ready") ∧
    pendingCard dirLtr "de" artA ∈
      (feedHandler decodeId dirLtr false (some 10) "de" [artA, artB] []).cards ∧
    (feedHandler decodeId dirLtr false (some 10) "de" [artA, artB] []).scheduledJobs = [] :=
  ⟨fun c hc =>
    ((c8_feed_strict_vs_nonstrict decodeId dirLtr (some 10) "de" [artA, artB] [trB]).2.1
      c hc).1,
   (c8_feed_strict_vs_nonstrict decodeId dirLtr (some 10) "de" [artA, artB] []).2.2
      artA (by decide) (by decide),
   ((c8_feed_strict_vs_nonstrict decodeId dirLtr (some 10) "de" [artA, artB] []).1 false).1⟩

/-- Counterexample for C8 as frozen: for a candidate with no persisted
target-language row, the non-strict response does contain the pending
placeholder, but the handler enqueues zero background resolution jobs
(the claim demands exactly one) and carries no pending-ids header. -/
theorem c8_counterexample :
    (feedHandler decodeId dirLtr false (some 10) "de" [artA] []).cards =
      [pendingCard dirLtr "de" artA] ∧
    (feedHandler decodeId dirLtr false (some 10) "de" [artA] []).scheduledJobs.length = 0 ∧
    (feedHandler decodeId dirLtr false (some 10) "de" [artA] []).pendingHeader = none := by
  decide

/-- `dropWhile` is idempotent. -/
theorem dropWhile_idem (p : Char → Bool) :
    ∀ l : List Char, (l.dropWhile p).dropWhile p = l.dropWhile p := by
  intro l
  induction l with
  | nil => rfl
  | cons c cs ih =>
    by_cases h : p c
    · rw [List.dropWhile_cons_of_pos h, ih]
    · rw [List.dropWhile_cons_of_neg h, List.dropWhile_cons_of_neg h]

/-- Dropping a prefix can only shorten a list. -/
theorem dropWhile_length_le (p : Char → Bool) :
    ∀ l : List Char, (l.dropWhile p).length ≤ l.length := by
  intro l
  induction l with
  | nil => simp
  | cons c cs ih =>
    by_cases h : p c
    · rw [List.dropWhile_cons_of_pos h]
      simp only [List.length_cons]
      omega
    · rw [List.dropWhile_cons_of_neg h]

/-- The sentence scan loses exactly the leading run of delimiters: the
concatenation of the matches is the input with its leading delimiters
dropped. -/
theorem splitSentencesFuel_flatten :
    ∀ (fuel : Nat) (l : List Char), l.length ≤ fuel →
      (splitSentencesFuel fuel l).flatten = l.dropWhile isDelim := by
  intro fuel
  induction fuel with
  | zero =>
    intro l hl
    have : l = [] := List.eq_nil_of_length_eq_zero (Nat.le_zero.mp hl)
    subst this
    rfl
  | succ fuel ih =>
    intro l hl
    cases l with
    | nil => rfl
    | cons c cs =>
      have hcs : cs.length ≤ fuel := by
        simp only [List.length_cons] at hl
        omega
      by_cases hc : isDelim c
      · rw [splitSentencesFuel, if_pos hc, List.dropWhile_cons_of_pos hc]
        exact ih cs hcs
      · rw [splitSentencesFuel, if_neg hc, List.dropWhile_cons_of_neg hc]
        have hrest1 : (c :: cs).dropWhile notDelim = cs.dropWhile notDelim := by
          rw [List.dropWhile_cons_of_pos]
          simp [notDelim, hc]
        have hlen : (((c :: cs).dropWhile notDelim).dropWhile isDelim).length ≤ fuel := by
          calc (((c :: cs).dropWhile notDelim).dropWhile isDelim).length
              ≤ ((c :: cs).dropWhile notDelim).length := dropWhile_length_le _ _
            _ = (cs.dropWhile notDelim).length := by rw [hrest1]
            _ ≤ cs.length := dropWhile_length_le _ _
            _ ≤ fuel := hcs
        rw [List.flatten_cons, ih _ hlen, dropWhile_idem]
        rw [List.append_assoc, List.takeWhile_append_dropWhile]
        exact List.takeWhile_append_dropWhile notDelim (c :: cs)

/-- Concatenating the grouped chunks restores the buffered prefix plus
the sentences. -/
theorem groupSentences_flatten (maxLen : Nat) :
    ∀ (sents : List (List Char)) (buf : List Char),
      (groupSentences maxLen sents buf).flatten = buf ++ sents.flatten := by
  intro sents
  induction sents with
  | nil =>
    intro buf
    by_cases hb : buf.isEmpty
    · rw [groupSentences, if_pos hb]
      simp [List.isEmpty_iff.mp hb]
    · rw [groupSentences, if_neg hb]
      simp
  | cons s rest ih =>
    intro buf
    rw [groupSentences]
    by_cases hcond : (buf.length + s.length > maxLen && !buf.isEmpty : Bool)
    · rw [if_pos hcond, List.flatten_cons, ih]
      simp
    · rw [if_neg hcond, ih]
      simp

/-- The hard split restores its input. -/
theorem hardSplitFuel_flatten (maxLen : Nat) (hmax : 1 ≤ maxLen) :
    ∀ (fuel : Nat) (l : List Char), l.length ≤ fuel →
      (hardSplitFuel maxLen fuel l).flatten = l := by
  intro fuel
  induction fuel with
  | zero =>
    intro l hl
    have : l = [] := List.eq_nil_of_length_eq_zero (Nat.le_zero.mp hl)
    subst this
    rfl
  | succ fuel ih =>
    intro l hl
    cases l with
    | nil => rfl
    | cons c cs =>
      have hstep : hardSplitFuel maxLen (fuel + 1) (c :: cs) =
          (c :: cs).take maxLen :: hardSplitFuel maxLen fuel ((c :: cs).drop maxLen) := rfl
      have hd : ((c :: cs).drop maxLen).length ≤ fuel := by
        simp only [List.length_drop, List.length_cons]
        simp only [List.length_cons] at hl
        omega
      rw [hstep, List.flatten_cons, ih _ hd, List.take_append_drop]

/-- Every hard-split piece respects the bound. -/
theorem hardSplitFuel_bound (maxLen : Nat) :
    ∀ (fuel : Nat) (l : List Char), ∀ p ∈ hardSplitFuel maxLen fuel l,
      p.length ≤ maxLen := by
  intro fuel
  induction fuel with
  | zero => intro l p hp; simp [hardSplitFuel] at hp
  | succ fuel ih =>
    intro l p hp
    cases l with
    | nil => simp [hardSplitFuel] at hp
    | cons c cs =>
      have hstep : hardSplitFuel maxLen (fuel + 1) (c :: cs) =
          (c :: cs).take maxLen :: hardSplitFuel maxLen fuel ((c :: cs).drop maxLen) := rfl
      rw [hstep] at hp
      rcases List.mem_cons.mp hp with hhead | htail
      · subst hhead
        exact List.length_take_le maxLen (c :: cs)
      · exact ih _ p htail

/-- Every chunk produced by `splitIntoChunks` has length at most
`maxLen`. -/
theorem splitIntoChunksL_bound (t : List Char) (maxLen : Nat) :
    ∀ c ∈ splitIntoChunksL t maxLen, c.length ≤ maxLen := by
  intro c hc
  rw [splitIntoChunksL] at hc
  by_cases hlen : t.length ≤ maxLen
  · rw [if_pos hlen] at hc
    rcases List.mem_singleton.mp hc with rfl
    exact hlen
  · rw [if_neg hlen] at hc
    obtain ⟨pieces, hmem, hcp⟩ := List.mem_flatten.mp hc
    obtain ⟨chunk, _, hpieces⟩ := List.mem_map.mp hmem
    by_cases hch : chunk.length ≤ maxLen
    · rw [if_pos hch] at hpieces
      subst hpieces
      rcases List.mem_singleton.mp hcp with rfl
      exact hch
    · rw [if_neg hch] at hpieces
      subst hpieces
      exact hardSplitFuel_bound maxLen _ _ c hcp

/-- The in-order concatenation of the chunks equals the input with its
leading sentence delimiters dropped (and equals the input exactly when
it does not start with a delimiter). -/
theorem splitIntoChunksL_flatten (t : List Char) (maxLen : Nat) (hmax : 1 ≤ maxLen)
    (hlead : t.dropWhile isDelim = t) :
    (splitIntoChunksL t maxLen).flatten = t := by
  rw [splitIntoChunksL]
  by_cases hlen : t.length ≤ maxLen
  · rw [if_pos hlen]
    simp
  · rw [if_neg hlen]
    have hpieces : ∀ chunk : List Char,
        ((if chunk.length ≤ maxLen then [chunk] else hardSplit maxLen chunk) :
          List (List Char)).flatten = chunk := by
      intro chunk
      by_cases hch : chunk.length ≤ maxLen
      · rw [if_pos hch]
        simp
      · rw [if_neg hch]
        exact hardSplitFuel_flatten maxLen hmax _ chunk le_rfl
    have hjoin : ∀ chunks : List (List Char),
        (((chunks.map (fun c =>
          if c.length ≤ maxLen then [c] else hardSplit maxLen c)).flatten).flatten) =
        chunks.flatten := by
      intro chunks
      induction chunks with
      | nil => rfl
      | cons c rest ihc =>
        rw [List.map_cons, List.flatten_cons, List.flatten_append, ihc,
          List.flatten_cons, hpieces c]
    cases hsent : splitSentences t with
    | nil =>
      simp only [hsent]
      rw [hjoin, groupSentences_flatten]
      simp
    | cons s ss =>
      simp only [hsent]
      rw [hjoin, groupSentences_flatten]
      have := splitSentencesFuel_flatten t.length t le_rfl
      rw [splitSentences] at hsent
      rw [List.nil_append, ← hsent, this, hlead]

/-- With every provider attempt failing, the retry loop returns the
fallback and leaves the in-process cache untouched. -/
theorem attemptGo_none (prov : Nat → String → Option String) (fallback : String)
    (hprov : ∀ n s, prov n s = none) :
    ∀ (n : Nat) (text : String) (st : TState),
      (attemptGo prov fallback n text st).1 = fallback ∧
      (attemptGo prov fallback n text st).2.mem = st.mem := by
  intro n
  induction n with
  | zero => intro text st; exact ⟨rfl, rfl⟩
  | succ n ih =>
    intro text st
    rw [attemptGo, hprov]
    exact ih text _

/-- Provider exhaustion: `attemptTranslateWithRetries` yields the input
plus the marker, whether a key is configured or not. -/
theorem attempt_fail (cfg : TCfg) (prov : Nat → String → Option String)
    (hprov : ∀ n s, prov n s = none) (text : String) (st : TState) :
    (attemptTranslateWithRetries cfg prov text st).1 = text ++ markerOf cfg ∧
    (attemptTranslateWithRetries cfg prov text st).2.mem = st.mem := by
  rw [attemptTranslateWithRetries]
  by_cases hk : cfg.hasKey
  · simp only [hk, Bool.not_true, Bool.false_eq_true, if_false]
    exact attemptGo_none prov _ hprov _ text st
  · simp only [Bool.not_eq_true] at hk
    simp [hk]

/-- An always-succeeding provider answers on the first attempt. -/
theorem attempt_succ (cfg : TCfg) (prov : Nat → String → Option String)
    (g : String → String) (hk : cfg.hasKey = true)
    (hprov : ∀ n s, prov n s = some (g s)) (text : String) (st : TState) :
    (attemptTranslateWithRetries cfg prov text st).1 = g text ∧
    (attemptTranslateWithRetries cfg prov text st).2.mem = st.mem := by
  rw [attemptTranslateWithRetries]
  simp only [hk, Bool.not_true, Bool.false_eq_true, if_false]
  rw [attemptGo, hprov]
  exact ⟨rfl, rfl⟩

/-- A cache respecting `f` answers `f` on hits. -/
theorem memLookup_inv (st : TState) (k : TKey) (v : String) (f : String → String)
    (hinv : ∀ e ∈ st.mem, e.2 = f e.1.text) (h : memLookup st k = some v) :
    v = f k.text := by
  obtain ⟨e0, he0, hv⟩ := Option.map_eq_some'.mp h
  have hpred := List.find?_some he0
  have hmem := List.mem_of_find?_eq_some he0
  have hk : e0.1 = k := by simpa using hpred
  have := hinv e0 hmem
  rw [← hv, this, hk]

/-- `lruSet` preserves a value invariant on the cache. -/
theorem lruSet_inv (cfg : TCfg) (st : TState) (k : TKey) (v : String)
    (f : String → String) (hinv : ∀ e ∈ st.mem, e.2 = f e.1.text)
    (hv : v = f k.text) :
    ∀ e ∈ (lruSet cfg st k v).mem, e.2 = f e.1.text := by
  intro e he
  rw [lruSet] at he
  simp only at he
  have hbase : ∀ e' ∈ (st.mem.filter (fun x => !(x.1 = k : Bool))) ++ [(k, v)],
      e'.2 = f e'.1.text := by
    intro e' he'
    rcases List.mem_append.mp he' with hf | hs
    · exact hinv e' (List.mem_of_mem_filter hf)
    · rcases List.mem_singleton.mp hs with rfl
      exact hv
  by_cases hlen : ((st.mem.filter (fun x => !(x.1 = k : Bool))) ++ [(k, v)]).length >
      cfg.maxCache
  · rw [if_pos hlen] at he
    exact hbase e (List.mem_of_mem_drop he)
  · rw [if_neg hlen] at he
    exact hbase e he

/-- The chunk loop translates every part with `f`, in input order, as
long as the retry layer computes `f` and the cache only holds `f`
values. -/
theorem translateChunks_map (cfg : TCfg) (prov : Nat → String → Option String)
    (src cacheDst : String) (f : String → String)
    (hat : ∀ part st, (attemptTranslateWithRetries cfg prov part st).1 = f part ∧
      (attemptTranslateWithRetries cfg prov part st).2.mem = st.mem) :
    ∀ (parts : List String) (st : TState), (∀ e ∈ st.mem, e.2 = f e.1.text) →
      (translateChunks cfg prov src cacheDst parts st).1 = parts.map f ∧
      (∀ e ∈ (translateChunks cfg prov src cacheDst parts st).2.mem,
        e.2 = f e.1.text) := by
  intro parts
  induction parts with
  | nil => intro st hinv; exact ⟨rfl, hinv⟩
  | cons part rest ih =>
    intro st hinv
    rw [translateChunks]
    cases hfind : memLookup st ⟨src, cacheDst, part⟩ with
    | some v =>
      have hv : v = f part := memLookup_inv st _ v f hinv hfind
      obtain ⟨ih1, ih2⟩ := ih st hinv
      simp only [List.map_cons]
      constructor
      · simp only [ih1, hv]
      · exact ih2
    | none =>
      have ha := hat part st
      simp only [ha.1]
      have hinv2 : ∀ e ∈ (dbWrite (lruSet cfg (attemptTranslateWithRetries cfg prov part st).2
          ⟨src, cacheDst, part⟩ (f part)) ⟨src, cacheDst, part⟩ (f part)).mem,
          e.2 = f e.1.text := by
        intro e he
        rw [dbWrite] at he
        simp only at he
        refine lruSet_inv cfg ((attemptTranslateWithRetries cfg prov part st).2)
          ⟨src, cacheDst, part⟩ (f part) f ?_ rfl e he
        intro e' he'
        rw [ha.2] at he'
        exact hinv e' he'
      obtain ⟨ih1, ih2⟩ := ih _ hinv2
      exact ⟨by rw [List.map_cons, ih1], ih2⟩

/-- Claim C6 (amended): `translateTextCached` is total by construction
and never throws; when the in-process and persistent caches miss and
every provider attempt (the initial attempt plus `MT_RETRIES` retries)
fails or times out, it returns: the bare input for trivial inputs (empty
text, empty destination, length below 2); the input suffixed with the
marker for texts below the chunk threshold; and for chunked texts the
in-order concatenation of the chunks, each suffixed with the marker.
With `BFF_TRANSLATION_TAG=off` the marker is empty, so short texts come
back unchanged. -/
theorem c6_translate_fallback (cfg : TCfg) (prov : Nat → String → Option String)
    (dbc : TKey → Option String) (text srcLang dstLang : String) (st : TState)
    (hprov : ∀ n s, prov n s = none) (hmem : st.mem = [])
    (hdbc : ∀ k, dbc k = none) :
    (translateTextCached cfg prov dbc text srcLang dstLang st).1 =
      if text = "" || dstLang = "" then text
      else if text.length < 2 then text
      else if text.length ≥ cfg.chunkThreshold then
        concatStrings ((splitIntoChunks text cfg.chunkMax).map
          (fun c => c ++ markerOf cfg))
      else text ++ markerOf cfg := by
  rw [translateTextCached]
  by_cases h1 : (text = "" || dstLang = "" : Bool)
  · rw [if_pos h1]
    simp only [h1, if_true]
  · rw [if_neg h1]
    simp only [h1, Bool.false_eq_true, if_false]
    by_cases h2 : text.length < 2
    · rw [if_pos h2, if_pos h2]
    · rw [if_neg h2, if_neg h2]
      have hfind : memLookup st
          ⟨srcLang, if baseOf dstLang = "" then dstLang else baseOf dstLang, text⟩ =
          none := by
        rw [memLookup, hmem]
        rfl
      rw [hfind]
      rw [hdbc]
      by_cases h3 : text.length ≥ cfg.chunkThreshold
      · rw [if_pos h3, if_pos h3]
        have := translateChunks_map cfg prov srcLang
          (if baseOf dstLang = "" then dstLang else baseOf dstLang)
          (fun c => c ++ markerOf cfg)
          (fun part st' => attempt_fail cfg prov hprov part st')
          (splitIntoChunks text cfg.chunkMax) st
          (by rw [hmem]; intro e he; simp at he)
        rw [this.1]
      · rw [if_neg h3, if_neg h3]
        exact (attempt_fail cfg prov hprov text st).1

/-- Witness for C6: a three-character text below the threshold comes
back as the text plus the marker when the provider always fails. -/
theorem c6_witness :
    (translateTextCached cfgChunk provNone dbcNone "abc" "en" "de" tstate0).1 =
      (if ("abc" : String) = "" || ("de" : String) = "" then "abc"
      else if ("abc" : String).length < 2 then "abc"
      else if ("abc" : String).length ≥ cfgChunk.chunkThreshold then
        concatStrings ((splitIntoChunks "abc" cfgChunk.chunkMax).map
          (fun c => c ++ markerOf cfgChunk))
      else "abc" ++ markerOf cfgChunk) ∧
    (translateTextCached cfgChunk provNone dbcNone "abc" "en" "de" tstate0).1 =
      "abc [translated]" :=
  ⟨c6_translate_fallback cfgChunk provNone dbcNone "abc" "en" "de" tstate0
      (fun _ _ => rfl) rfl (fun _ => rfl),
   by decide⟩

/-- Counterexample for C6 as frozen: a text at the chunk threshold is
split, and each chunk is suffixed with the marker, so the result is not
the original text suffixed once with the marker. -/
theorem c6_counterexample :
    (translateTextCached cfgChunk provNone dbcNone "ab.cd" "en" "de" tstate0).1 =
      "ab. [translated]cd [translated]" ∧
    (translateTextCached cfgChunk provNone dbcNone "ab.cd" "en" "de" tstate0).1 ≠
      "ab.cd" ++ " [translated]" := by
  decide

/-- Claim C7 (amended): chunking produces chunks of length at most the
maximum; the in-order concatenation of the chunks equals the original
text whenever the text does not begin with a sentence delimiter
(`.`, `!`, `?`, newline) — a leading run of delimiters is dropped by the
sentence regex; and the chunked path of `translateTextCached` returns
the concatenation of the per-chunk translations in input order. -/
theorem c7_chunking_roundtrip :
    (∀ (t : String) (maxLen : Nat), ∀ c ∈ splitIntoChunks t maxLen,
      c.length ≤ maxLen) ∧
    (∀ (t : String) (maxLen : Nat), 1 ≤ maxLen →
      t.data.dropWhile isDelim = t.data →
      concatStrings (splitIntoChunks t maxLen) = t) ∧
    (∀ (cfg : TCfg) (prov : Nat → String → Option String) (dbc : TKey → Option String)
      (g : String → String) (text srcLang dstLang : String) (st : TState),
      cfg.hasKey = true → (∀ n s, prov n s = some (g s)) →
      st.mem = [] → (∀ k, dbc k = none) →
      ¬(text = "" || dstLang = "" : Bool) → ¬text.length < 2 →
      text.length ≥ cfg.chunkThreshold →
      (translateTextCached cfg prov dbc text srcLang dstLang st).1 =
        concatStrings ((splitIntoChunks text cfg.chunkMax).map g)) := by
  refine ⟨?_, ?_, ?_⟩
  · intro t maxLen c hc
    rw [splitIntoChunks] at hc
    obtain ⟨l, hl, rfl⟩ := List.mem_map.mp hc
    exact splitIntoChunksL_bound t.data maxLen l hl
  · intro t maxLen hmax hlead
    rw [splitIntoChunks, concatStrings]
    have hmap : (((splitIntoChunksL t.data maxLen).map (fun l => (⟨l⟩ : String))).map
        String.data) = splitIntoChunksL t.data maxLen := by
      rw [List.map_map]
      have hid : (String.data ∘ fun l : List Char => (⟨l⟩ : String)) = id := rfl
      rw [hid, List.map_id]
    rw [hmap, splitIntoChunksL_flatten t.data maxLen hmax hlead]
  · intro cfg prov dbc g text srcLang dstLang st hk hprov hmem hdbc h1 h2 h3
    have hfind : memLookup st
        ⟨srcLang, if baseOf dstLang = "" then dstLang else baseOf dstLang, text⟩ =
        none := by
      rw [memLookup, hmem]
      rfl
    simp only [translateTextCached, if_neg h1, if_neg h2]
    rw [hfind, hdbc, if_pos h3]
    have := translateChunks_map cfg prov srcLang
      (if baseOf dstLang = "" then dstLang else baseOf dstLang) g
      (fun part st' => attempt_succ cfg prov g hk hprov part st')
      (splitIntoChunks text cfg.chunkMax) st
      (by rw [hmem]; intro e he; simp at he)
    rw [this.1]

/-- Witness for C7: the text `ab.cd` with chunk max 4 splits into `ab.`
and `cd`; the bound, the round-trip and the per-chunk translation order
all hold and evaluate as expected with the token provider. -/
theorem c7_witness :
    (∀ c ∈ splitIntoChunks "ab.cd" 4, c.length ≤ 4) ∧
    concatStrings (splitIntoChunks "ab.cd" 4) = "ab.cd" ∧
    (translateTextCached cfgChunk provTok dbcNone "ab.cd" "en" "de" tstate0).1 =
      concatStrings ((splitIntoChunks "ab.cd" 4).map gTok) ∧
    (translateTextCached cfgChunk provTok dbcNone "ab.cd" "en" "de" tstate0).1 =
      "ab.|trcd|tr" :=
  ⟨fun c hc => c7_chunking_roundtrip.1 "ab.cd" 4 c hc,
   c7_chunking_roundtrip.2.1 "ab.cd" 4 (by decide) (by decide),
   c7_chunking_roundtrip.2.2 cfgChunk provTok dbcNone gTok "ab.cd" "en" "de" tstate0
     rfl (fun _ _ => rfl) rfl (fun _ => rfl) (by decide) (by decide) (by decide),
   by decide⟩

/-- Counterexample for C7 as frozen: a text starting with a sentence
delimiter loses that leading run — the concatenation of the chunks is
not the original input. -/
theorem c7_counterexample :
    (String.length ".abcd" > 4) ∧
    concatStrings (splitIntoChunks ".abcd" 4) = "abcd" ∧
    (("abcd" : String) ≠ ".abcd") := by
  decide

/-- Filtering after a pointwise-predicate-preserving map keeps the
length. -/
theorem filter_length_map_congr (f : Row → Row) (p : Row → Bool)
    (l : List Row) (h : ∀ r ∈ l, p (f r) = p r) :
    ((l.map f).filter p).length = (l.filter p).length := by
  induction l with
  | nil => rfl
  | cons r rest ih =>
    have hr := h r (List.mem_cons_self r rest)
    have hrest := fun r' hr' => h r' (List.mem_cons_of_mem r hr')
    simp only [List.map_cons, List.filter_cons, hr]
    by_cases hp : p r
    · rw [if_pos hp, if_pos hp]
      simp [ih hrest]
    · rw [if_neg hp, if_neg hp]
      exact ih hrest

/-- A map that can only falsify the predicate can only shrink the
filter. -/
theorem filter_length_map_le (f : Row → Row) (p : Row → Bool)
    (hf : ∀ r, p (f r) = true → p r = true) :
    ∀ l : List Row, ((l.map f).filter p).length ≤ (l.filter p).length := by
  intro l
  induction l with
  | nil => exact Nat.le_refl _
  | cons r rest ih =>
    simp only [List.map_cons, List.filter_cons]
    by_cases hfr : p (f r)
    · rw [if_pos hfr, if_pos (hf r hfr)]
      simpa using ih
    · rw [if_neg hfr]
      by_cases hr : p r
      · rw [if_pos hr]
        simp only [List.length_cons]
        omega
      · rw [if_neg hr]
        exact ih

/-- Flipping the current rows of a pair leaves no current row for that
pair. -/
theorem currentCount_flipCurrent_self (db : DB) (cid : Nat) (lang : String) :
    currentCount (flipCurrent db cid lang) cid lang = 0 := by
  rw [currentCount, flipCurrent]
  simp only
  rw [List.length_eq_zero]
  rw [List.filter_eq_nil_iff]
  intro r hr
  obtain ⟨r0, _, rfl⟩ := List.mem_map.mp hr
  by_cases h : isCurrentFor cid lang r0
  · rw [if_pos h]
    simp [isCurrentFor]
  · rw [if_neg h]
    exact fun hpr => h hpr

/-- Flipping one pair does not affect the current count of another
pair. -/
theorem currentCount_flipCurrent_other (db : DB) (cid : Nat) (lang : String)
    (cid' : Nat) (lang' : String) (h : ¬(cid' = cid ∧ lang' = lang)) :
    currentCount (flipCurrent db cid lang) cid' lang' = currentCount db cid' lang' := by
  rw [currentCount, currentCount, flipCurrent]
  simp only
  apply filter_length_map_congr
  intro r _
  by_cases hr : isCurrentFor cid lang r
  · rw [if_pos hr]
    have hr' := hr
    simp only [isCurrentFor, Bool.and_eq_true, decide_eq_true_eq] at hr'
    obtain ⟨⟨h1, h2⟩, h3⟩ := hr'
    have hfalse : isCurrentFor cid' lang' r = false := by
      simp only [isCurrentFor, h1, h2]
      by_cases hc : cid = cid'
      · have hl : ¬(lang = lang') := fun hl => h ⟨hc.symm, hl.symm⟩
        simp [hl]
      · simp [fun hcc : cid = cid' => hc hcc]
    rw [hfalse]
    simp [isCurrentFor]
  · rw [if_neg hr]

/-- Flipping a row by id can only reduce a current count. -/
theorem currentCount_flipById_le (db : DB) (i : Nat) (cid : Nat) (lang : String) :
    currentCount (flipById db i) cid lang ≤ currentCount db cid lang := by
  rw [currentCount, currentCount, flipById]
  simp only
  apply filter_length_map_le
  intro r hpr
  by_cases h : r.id = i
  · rw [if_pos h] at hpr
    simp [isCurrentFor] at hpr
  · rwa [if_neg h] at hpr

/-- Under the at-most-one invariant, flipping the id of the pair's
current row leaves no current row for the pair. -/
theorem currentCount_flipById_zero (db : DB) (i : Nat) (cid : Nat) (lang : String)
    (hex : ∃ r0 ∈ db.rows, isCurrentFor cid lang r0 = true ∧ r0.id = i)
    (hle : currentCount db cid lang ≤ 1) :
    currentCount (flipById db i) cid lang = 0 := by
  obtain ⟨r0, hr0, hp0, hid0⟩ := hex
  rw [currentCount, flipById]
  simp only
  rw [List.length_eq_zero, List.filter_eq_nil_iff]
  intro r hr
  obtain ⟨r1, hr1, rfl⟩ := List.mem_map.mp hr
  by_cases h : r1.id = i
  · rw [if_pos h]
    simp [isCurrentFor]
  · rw [if_neg h]
    intro hp1
    have hmem0 : r0 ∈ db.rows.filter (isCurrentFor cid lang) :=
      List.mem_filter.mpr ⟨hr0, hp0⟩
    have hmem1 : r1 ∈ db.rows.filter (isCurrentFor cid lang) :=
      List.mem_filter.mpr ⟨hr1, hp1⟩
    have hne : r0 ≠ r1 := by
      intro he
      rw [← he] at h
      exact h hid0
    rw [currentCount] at hle
    cases hF : db.rows.filter (isCurrentFor cid lang) with
    | nil =>
      rw [hF] at hmem0
      simp at hmem0
    | cons x xs =>
      cases xs with
      | nil =>
        rw [hF] at hmem0 hmem1
        have h0 := List.mem_singleton.mp hmem0
        have h1 := List.mem_singleton.mp hmem1
        exact hne (h0.trans h1.symm)
      | cons y ys =>
        rw [hF] at hle
        simp at hle

/-- Inserting a row adds to exactly its own pair. -/
theorem currentCount_insert (db : DB) (r : Row) (cid : Nat) (lang : String) :
    currentCount (insertRow db r) cid lang =
      currentCount db cid lang + (if isCurrentFor cid lang r then 1 else 0) := by
  rw [currentCount, currentCount, insertRow]
  simp only
  rw [List.filter_append, List.length_append]
  by_cases h : isCurrentFor cid lang r
  · rw [if_pos h]
    simp [h]
  · rw [if_neg h]
    simp [h]

/-- An empty `maybeSingle` result means no current row for the pair. -/
theorem selTargetCurrent_none_iff (db : DB) (cid : Nat) (lang : String) :
    selTargetCurrent db cid lang = none ↔ currentCount db cid lang = 0 := by
  rw [selTargetCurrent, currentCount]
  constructor
  · intro h
    have := Option.map_eq_none'.mp h
    rw [List.head?_eq_none_iff.mp this]
    rfl
  · intro h
    rw [List.length_eq_zero.mp h]
    rfl

/-- A found current row comes from an underlying table row of the pair,
with only `pivot_hash` blanked by the projection. -/
theorem selTargetCurrent_some (db : DB) (cid : Nat) (lang : String) (row : Row)
    (h : selTargetCurrent db cid lang = some row) :
    ∃ r0 ∈ db.rows, isCurrentFor cid lang r0 = true ∧ proj r0 = row := by
  rw [selTargetCurrent] at h
  obtain ⟨r0, hr0, hproj⟩ := Option.map_eq_some'.mp h
  have hmem := List.mem_of_mem_head? hr0
  exact ⟨r0, (List.mem_filter.mp hmem).1, (List.mem_filter.mp hmem).2, hproj⟩

/-- No usable row at all implies no current target row. -/
theorem useRowFor_none_target (db : DB) (cid : Nat) (tl : String)
    (h : useRowFor db cid tl = none) : selTargetCurrent db cid tl = none := by
  rw [useRowFor] at h
  cases hs : selTargetCurrent db cid tl with
  | none => rfl
  | some r =>
    rw [hs] at h
    exact absurd h (by simp)

/-- With no current row for the cluster the resolver returns `null` and
touches nothing. -/
theorem ensure_currents_nil (env : Env) (db : DB) (cid : Nat) (tl : String)
    (hcur : currentsOf db cid = []) :
    ensureClusterTextInLang env db cid tl = ⟨none, db, []⟩ := by
  simp only [ensureClusterTextInLang]
  rw [hcur]

/-- Dispatch of the resolver once the current rows are known. -/
theorem ensure_dispatch (env : Env) (db : DB) (cid : Nat) (tl : String)
    (c0 : Row) (cs : List Row) (hcur : currentsOf db cid = c0 :: cs) :
    ensureClusterTextInLang env db cid tl =
      match useRowFor db cid tl with
      | some row => ensureWithRow env db cid tl (pivotFrom c0 (c0 :: cs))
          (env.sig (sigInput (pivotFrom c0 (c0 :: cs)))) row
      | none => ensureNoTarget env db cid tl (pivotFrom c0 (c0 :: cs))
          (env.sig (sigInput (pivotFrom c0 (c0 :: cs)))) := by
  simp only [ensureClusterTextInLang]
  rw [hcur]

/-- The fresh path without the `#body=orig` carve-out: the stored row is
returned as-is, flagged untranslated, with no writes and no translation
calls. -/
theorem ensureWithRow_fresh_plain (env : Env) (db : DB) (cid : Nat) (tl : String)
    (pivot row : Row) (sig : String)
    (hfresh : freshCheck row pivot sig = true)
    (horig : (strContains row.model "#body=orig" &&
      (baseOf row.lang = baseOf tl : Bool)) = false) :
    ensureWithRow env db cid tl pivot sig row =
      ⟨some (resOfRow row false none), db, []⟩ := by
  simp only [ensureWithRow, hfresh, horig]
  simp

/-- The stale path with a succeeding update and first insert. -/
theorem ensureWithRow_stale_ok (env : Env) (db : DB) (cid : Nat) (tl : String)
    (pivot row : Row) (sig : String)
    (hfresh : freshCheck row pivot sig = false) (hmode : env.insertMode = .ok)
    (hupd : env.updateFails = false) :
    ensureWithRow env db cid tl pivot sig row =
      ⟨some (resOfRow (translateNow env pivot pivot.lang tl).1 true (some pivot.lang)),
        insertRow (flipById db row.id) (mkNewRow (flipById db row.id) cid tl
          (translateNow env pivot pivot.lang tl).1 sig true),
        (translateNow env pivot pivot.lang tl).2⟩ := by
  simp only [ensureWithRow, hfresh, hmode, hupd]
  simp

/-- The stale path when the update succeeds, the hash-bearing insert
throws and the fallback insert succeeds. -/
theorem ensureWithRow_stale_noHash (env : Env) (db : DB) (cid : Nat) (tl : String)
    (pivot row : Row) (sig : String)
    (hfresh : freshCheck row pivot sig = false) (hmode : env.insertMode = .noHash)
    (hupd : env.updateFails = false) :
    ensureWithRow env db cid tl pivot sig row =
      ⟨some (resOfRow (translateNow env pivot pivot.lang tl).1 true (some pivot.lang)),
        insertRow (flipById db row.id) (mkNewRow (flipById db row.id) cid tl
          (translateNow env pivot pivot.lang tl).1 sig false),
        (translateNow env pivot pivot.lang tl).2⟩ := by
  simp only [ensureWithRow, hfresh, hmode, hupd]
  simp

/-- The stale path when both insert attempts throw: the old row has
already been flipped non-current, and the catch-all hands the caller the
old row, not the translation. -/
theorem ensureWithRow_stale_fail (env : Env) (db : DB) (cid : Nat) (tl : String)
    (pivot row : Row) (sig : String)
    (hfresh : freshCheck row pivot sig = false)
    (hmode : env.insertMode = .alwaysFail)
    (hupd : env.updateFails = false) :
    ensureWithRow env db cid tl pivot sig row =
      ⟨some (resOfRow row false none), flipById db row.id,
        (translateNow env pivot pivot.lang tl).2⟩ := by
  simp only [ensureWithRow, hfresh, hmode, hupd]
  simp

/-- The stale path when the unguarded `is_current` update throws: the
exception reaches the outer catch, so the old row is returned and the
database is untouched (the translation call has already happened). -/
theorem ensureWithRow_stale_updFail (env : Env) (db : DB) (cid : Nat) (tl : String)
    (pivot row : Row) (sig : String)
    (hfresh : freshCheck row pivot sig = false)
    (hupd : env.updateFails = true) :
    ensureWithRow env db cid tl pivot sig row =
      ⟨some (resOfRow row false none), db,
        (translateNow env pivot pivot.lang tl).2⟩ := by
  simp only [ensureWithRow, hfresh, hupd]
  simp

/-- The `#body=orig` carve-out on a fresh row, by insert mode, when the
swallowed `is_current` flip succeeds. -/
theorem ensureWithRow_orig (env : Env) (db : DB) (cid : Nat) (tl : String)
    (pivot row : Row) (sig : String)
    (hfresh : freshCheck row pivot sig = true)
    (hupd : env.updateFails = false)
    (horig : (strContains row.model "#body=orig" &&
      (baseOf row.lang = baseOf tl : Bool)) = true) :
    ensureWithRow env db cid tl pivot sig row =
      match env.insertMode with
      | .alwaysFail =>
        ⟨some (resOfRow row false none), flipCurrent db cid tl,
          (translateNow env pivot "auto" tl).2⟩
      | .ok =>
        ⟨some (resOfRow (translateNow env pivot "auto" tl).1 true (some pivot.lang)),
          insertRow (flipCurrent db cid tl) (mkNewRow (flipCurrent db cid tl) cid tl
            (translateNow env pivot "auto" tl).1 sig true),
          (translateNow env pivot "auto" tl).2⟩
      | .noHash =>
        ⟨some (resOfRow (translateNow env pivot "auto" tl).1 true (some pivot.lang)),
          insertRow (flipCurrent db cid tl) (mkNewRow (flipCurrent db cid tl) cid tl
            (translateNow env pivot "auto" tl).1 sig false),
          (translateNow env pivot "auto" tl).2⟩ := by
  cases hmode : env.insertMode <;>
    simp only [ensureWithRow, hfresh, horig, hmode, hupd] <;> simp

/-- The no-target path, by insert mode (the re-check sees no current
row in this sequential model, since the first select saw none). -/
theorem ensureNoTarget_eq (env : Env) (db : DB) (cid : Nat) (tl : String)
    (pivot : Row) (sig : String)
    (hchk : selTargetCurrent db cid tl = none) :
    ensureNoTarget env db cid tl pivot sig =
      match env.insertMode with
      | .alwaysFail =>
        ⟨some (resOfRow (translateNow env pivot pivot.lang tl).1 true (some pivot.lang)),
          db, (translateNow env pivot pivot.lang tl).2⟩
      | .ok =>
        ⟨some (resOfRow (translateNow env pivot pivot.lang tl).1 true (some pivot.lang)),
          insertRow db (mkNewRow db cid tl (translateNow env pivot pivot.lang tl).1 sig true),
          (translateNow env pivot pivot.lang tl).2⟩
      | .noHash =>
        ⟨some (resOfRow (translateNow env pivot pivot.lang tl).1 true (some pivot.lang)),
          insertRow db (mkNewRow db cid tl (translateNow env pivot pivot.lang tl).1 sig false),
          (translateNow env pivot pivot.lang tl).2⟩ := by
  cases hmode : env.insertMode <;> simp only [ensureNoTarget, hchk, hmode] <;> simp

/-- The new row is current exactly for its own pair. -/
theorem isCurrentFor_mkNewRow (db : DB) (cid : Nat) (tl : String) (tr : Row)
    (sig : String) (wh : Bool) (cid' : Nat) (lang' : String) :
    isCurrentFor cid' lang' (mkNewRow db cid tl tr sig wh) =
      (decide (cid = cid') && decide (tl = lang')) := by
  simp [isCurrentFor, mkNewRow]

/-- Invariant preservation for the insert of the new current row, given
that the pair has no current row left. -/
theorem insert_count_le (db : DB) (cid : Nat) (tl : String) (tr : Row)
    (sig : String) (wh : Bool) (cid' : Nat) (lang' : String)
    (hz : cid' = cid → lang' = tl → currentCount db cid' lang' = 0)
    (hle : currentCount db cid' lang' ≤ 1) :
    currentCount (insertRow db (mkNewRow db cid tl tr sig wh)) cid' lang' ≤ 1 := by
  rw [currentCount_insert, isCurrentFor_mkNewRow]
  by_cases hc : cid = cid'
  · by_cases hl : tl = lang'
    · rw [hz hc.symm hl.symm]
      simp [hc, hl]
    · simp [hl]
      exact hle
  · simp [hc]
    exact hle

/-- The resolver preserves the at-most-one-current invariant on every
path, for every insert-fault mode, provided the `is_current` updates
succeed. -/
theorem ensure_preserves_invariant (env : Env) (db : DB) (cid : Nat) (tl : String)
    (hupd : env.updateFails = false)
    (hinv : AtMostOneCurrent db) :
    AtMostOneCurrent (ensureClusterTextInLang env db cid tl).db := by
  cases hcur : currentsOf db cid with
  | nil =>
    rw [ensure_currents_nil env db cid tl hcur]
    exact hinv
  | cons c0 cs =>
    rw [ensure_dispatch env db cid tl c0 cs hcur]
    cases huse : useRowFor db cid tl with
    | none =>
      have hchk := useRowFor_none_target db cid tl huse
      simp only
      rw [ensureNoTarget_eq env db cid tl _ _ hchk]
      cases hmode : env.insertMode with
      | alwaysFail => exact hinv
      | ok =>
        intro cid' lang'
        simp only
        apply insert_count_le
        · intro hc hl
          rw [hc, hl]
          exact (selTargetCurrent_none_iff db cid tl).mp hchk
        · exact hinv cid' lang'
      | noHash =>
        intro cid' lang'
        simp only
        apply insert_count_le
        · intro hc hl
          rw [hc, hl]
          exact (selTargetCurrent_none_iff db cid tl).mp hchk
        · exact hinv cid' lang'
    | some row =>
      simp only
      by_cases hfresh : freshCheck row (pivotFrom c0 (c0 :: cs))
          (env.sig (sigInput (pivotFrom c0 (c0 :: cs)))) = true
      · by_cases horig : (strContains row.model "#body=orig" &&
            (baseOf row.lang = baseOf tl : Bool)) = true
        · rw [ensureWithRow_orig env db cid tl _ row _ hfresh hupd horig]
          have hflip : ∀ cid' lang',
              currentCount (flipCurrent db cid tl) cid' lang' ≤ 1 ∧
              (cid' = cid → lang' = tl →
                currentCount (flipCurrent db cid tl) cid' lang' = 0) := by
            intro cid' lang'
            constructor
            · by_cases hp : cid' = cid ∧ lang' = tl
              · rw [hp.1, hp.2, currentCount_flipCurrent_self]
                omega
              · rw [currentCount_flipCurrent_other db cid tl cid' lang' hp]
                exact hinv cid' lang'
            · intro hc hl
              rw [hc, hl, currentCount_flipCurrent_self]
          cases hmode : env.insertMode with
          | alwaysFail =>
            intro cid' lang'
            exact (hflip cid' lang').1
          | ok =>
            intro cid' lang'
            simp only
            exact insert_count_le _ cid tl _ _ _ cid' lang'
              (hflip cid' lang').2 (hflip cid' lang').1
          | noHash =>
            intro cid' lang'
            simp only
            exact insert_count_le _ cid tl _ _ _ cid' lang'
              (hflip cid' lang').2 (hflip cid' lang').1
        · have horig' : (strContains row.model "#body=orig" &&
              (baseOf row.lang = baseOf tl : Bool)) = false := by
            simpa using horig
          rw [ensureWithRow_fresh_plain env db cid tl _ row _ hfresh horig']
          exact hinv
      · have hfresh' : freshCheck row (pivotFrom c0 (c0 :: cs))
            (env.sig (sigInput (pivotFrom c0 (c0 :: cs)))) = false := by
          simpa using hfresh
        have hflip : ∀ cid' lang',
            currentCount (flipById db row.id) cid' lang' ≤ 1 ∧
            (cid' = cid → lang' = tl →
              currentCount (flipById db row.id) cid' lang' = 0) := by
          intro cid' lang'
          constructor
          · exact le_trans (currentCount_flipById_le db row.id cid' lang')
              (hinv cid' lang')
          · intro hc hl
            rw [hc, hl]
            cases hsel : selTargetCurrent db cid tl with
            | some r =>
              have hrow : row = r := by
                rw [useRowFor, hsel] at huse
                simpa using huse.symm
              subst hrow
              obtain ⟨r0, hr0, hp0, hproj⟩ := selTargetCurrent_some db cid tl row hsel
              apply currentCount_flipById_zero db row.id cid tl
              · refine ⟨r0, hr0, hp0, ?_⟩
                rw [← hproj]
                rfl
              · exact hinv cid tl
            | none =>
              have h0 := (selTargetCurrent_none_iff db cid tl).mp hsel
              have := currentCount_flipById_le db row.id cid tl
              omega
        cases hmode : env.insertMode with
        | alwaysFail =>
          rw [ensureWithRow_stale_fail env db cid tl _ row _ hfresh' hmode hupd]
          intro cid' lang'
          exact (hflip cid' lang').1
        | ok =>
          rw [ensureWithRow_stale_ok env db cid tl _ row _ hfresh' hmode hupd]
          intro cid' lang'
          simp only
          exact insert_count_le _ cid tl _ _ _ cid' lang'
            (hflip cid' lang').2 (hflip cid' lang').1
        | noHash =>
          rw [ensureWithRow_stale_noHash env db cid tl _ row _ hfresh' hmode hupd]
          intro cid' lang'
          simp only
          exact insert_count_le _ cid tl _ _ _ cid' lang'
            (hflip cid' lang').2 (hflip cid' lang').1

/-- The boolean pairwise check yields the propositional pairwise
relation. -/
theorem pairwiseOk_pairwise :
    ∀ l : List Row, pairwiseOkRows l = true →
      l.Pairwise (fun r s =>
        ¬(r.is_current = true ∧ s.is_current = true ∧
          r.cluster_id = s.cluster_id ∧ r.lang = s.lang)) := by
  intro l
  induction l with
  | nil => intro _; exact List.Pairwise.nil
  | cons r rest ih =>
    intro h
    rw [pairwiseOkRows, Bool.and_eq_true] at h
    refine List.Pairwise.cons ?_ (ih h.2)
    intro s hs
    have := List.all_eq_true.mp h.1 s hs
    simp only [Bool.not_eq_true', Bool.and_eq_true, decide_eq_true_eq] at this
    intro ⟨h1, h2, h3, h4⟩
    simp [h1, h2, h3, h4] at this

/-- A pairwise check on the row list implies the at-most-one-current
invariant (used to discharge the invariant on concrete databases). -/
theorem atMostOne_of_pairwise (db : DB) (h : CurrentPairwise db) :
    AtMostOneCurrent db := by
  intro cid lang
  rw [currentCount]
  have hfilter := List.Pairwise.filter (R := fun r s : Row =>
      ¬(r.is_current = true ∧ s.is_current = true ∧
        r.cluster_id = s.cluster_id ∧ r.lang = s.lang))
    (isCurrentFor cid lang) (pairwiseOk_pairwise db.rows h)
  cases hF : db.rows.filter (isCurrentFor cid lang) with
  | nil => simp
  | cons x xs =>
    cases xs with
    | nil => simp
    | cons y ys =>
      exfalso
      rw [hF] at hfilter
      have hR := (List.pairwise_cons.mp hfilter).1 y (List.mem_cons_self y ys)
      have hx : isCurrentFor cid lang x = true := by
        have : x ∈ db.rows.filter (isCurrentFor cid lang) := by
          rw [hF]
          exact List.mem_cons_self _ _
        exact (List.mem_filter.mp this).2
      have hy : isCurrentFor cid lang y = true := by
        have : y ∈ db.rows.filter (isCurrentFor cid lang) := by
          rw [hF]
          exact List.mem_cons_of_mem _ (List.mem_cons_self _ _)
        exact (List.mem_filter.mp this).2
      simp only [isCurrentFor, Bool.and_eq_true, decide_eq_true_eq] at hx hy
      exact hR ⟨hx.2, hy.2, by rw [hx.1.1, hy.1.1], by rw [hx.1.2, hy.1.2]⟩

/-- Claim C4 (amended): every run of the resolver preserves the
invariant that at most one `cluster_ai` row per `(cluster_id, lang)`
pair is current, whatever the insert-fault mode, provided the
`is_current` updates succeed — the stale-swap path flips the old row
before inserting, the orig-body path flips every current row of the
target pair, and the no-target path re-checks before inserting. (When
the orig-body flip fails, its failure is swallowed and a succeeding
insert leaves two current rows; see the counterexample.) -/
theorem c4_resolver_invariant (env : Env) (db : DB) (cid : Nat) (tl : String)
    (hupd : env.updateFails = false)
    (hinv : AtMostOneCurrent db) :
    AtMostOneCurrent (ensureClusterTextInLang env db cid tl).db :=
  ensure_preserves_invariant env db cid tl hupd hinv

/-- Witness for C4: the stale-swap run on the concrete two-row cluster
keeps the invariant. -/
theorem c4_witness :
    envNeuOk.updateFails = false ∧
    AtMostOneCurrent dbStale ∧
    AtMostOneCurrent (ensureClusterTextInLang envNeuOk dbStale 1 "de").db :=
  have h : AtMostOneCurrent dbStale :=
    atMostOne_of_pairwise dbStale (by decide : pairwiseOkRows dbStale.rows = true)
  ⟨rfl, h, c4_resolver_invariant envNeuOk dbStale 1 "de" rfl h⟩

/-- Counterexample for C4 as frozen: on a cluster whose only current
`en` row carries `#body=orig`, a request for `en` takes the orig-body
carve-out; the swallowed `is_current` flip fails, the insert still
succeeds, and the pair ends up with two current rows — the operation
does not preserve the invariant under this failure mode. -/
theorem c4_counterexample :
    pairwiseOkRows dbOrig.rows = true ∧
    currentCount (ensureClusterTextInLang envNeuUpdFail dbOrig 1 "en").db 1 "en" = 2 := by
  decide

/-- Claim C1 (amended): when a current target-language row exists, passes
the freshness test (signature match or non-stale timestamp, no
legacy-equal field, no stub marker) and is not an orig-body row for the
requested base language, the resolver returns that row as-is with
`isTranslated = false` and `translatedFrom = null` — not with
`isTranslated = (target base-lang ≠ pivot base-lang)` — performing no
re-translation and no writes. -/
theorem c1_fresh_row_returned (env : Env) (db : DB) (cid : Nat) (tl : String)
    (c0 : Row) (cs : List Row) (row : Row)
    (hcur : currentsOf db cid = c0 :: cs)
    (hTar : selTargetCurrent db cid tl = some row)
    (hfresh : freshCheck row (pivotFrom c0 (c0 :: cs))
      (env.sig (sigInput (pivotFrom c0 (c0 :: cs)))) = true)
    (horig : (strContains row.model "#body=orig" &&
      (baseOf row.lang = baseOf tl : Bool)) = false) :
    ensureClusterTextInLang env db cid tl =
      ⟨some (resOfRow row false none), db, []⟩ := by
  rw [ensure_dispatch env db cid tl c0 cs hcur]
  have huse : useRowFor db cid tl = some row := by
    rw [useRowFor, hTar]
  rw [huse]
  exact ensureWithRow_fresh_plain env db cid tl _ row _ hfresh horig

/-- Witness for C1: the fresh German row of the concrete cluster is
returned untouched, with no translation calls and no writes. -/
theorem c1_witness :
    ensureClusterTextInLang envTr dbFresh 1 "de" =
      ⟨some (resOfRow rowDe false none), dbFresh, []⟩ ∧
    (resOfRow rowDe false none).is_translated = false :=
  ⟨c1_fresh_row_returned envTr dbFresh 1 "de" rowEn [rowDe] rowDe
      (by decide) (by decide) (by decide) (by decide),
   by decide⟩

/-- Counterexample for C1 as frozen: the fresh `de` row is returned with
`is_translated = false` although the target base language differs from
the pivot base language, where the claim demands `isTranslated = true`. -/
theorem c1_counterexample :
    (ensureClusterTextInLang envTr dbFresh 1 "de").res =
      some (resOfRow rowDe false none) ∧
    (resOfRow rowDe false none).is_translated = false ∧
    baseOf "de" ≠ baseOf "en" := by
  decide

/-- Claim C5 (amended): on the stale/legacy path the resolver
re-translates from the pivot, flips the old row non-current, inserts a
new current row carrying the pivot signature (in `pivot_hash` only when
the hash-bearing first attempt succeeds, in the `#ph=` model tag in
either case), and returns the new translation — provided the
`is_current` update succeeds and the insert succeeds directly or via the
hash-less retry; when both insert attempts fail, the catch-all returns
the old stale row instead of the translation (the flip having already
been persisted). -/
theorem c5_stale_swap (env : Env) (db : DB) (cid : Nat) (tl : String)
    (c0 : Row) (cs : List Row) (row : Row)
    (hcur : currentsOf db cid = c0 :: cs)
    (hTar : selTargetCurrent db cid tl = some row)
    (hfresh : freshCheck row (pivotFrom c0 (c0 :: cs))
      (env.sig (sigInput (pivotFrom c0 (c0 :: cs)))) = false)
    (hupd : env.updateFails = false)
    (hmode : env.insertMode ≠ .alwaysFail) :
    ensureClusterTextInLang env db cid tl =
      ⟨some (resOfRow (translateNow env (pivotFrom c0 (c0 :: cs))
          (pivotFrom c0 (c0 :: cs)).lang tl).1 true (some (pivotFrom c0 (c0 :: cs)).lang)),
        insertRow (flipById db row.id) (mkNewRow (flipById db row.id) cid tl
          (translateNow env (pivotFrom c0 (c0 :: cs)) (pivotFrom c0 (c0 :: cs)).lang tl).1
          (env.sig (sigInput (pivotFrom c0 (c0 :: cs))))
          (decide (env.insertMode = InsertMode.ok))),
        (translateNow env (pivotFrom c0 (c0 :: cs)) (pivotFrom c0 (c0 :: cs)).lang tl).2⟩ := by
  rw [ensure_dispatch env db cid tl c0 cs hcur]
  have huse : useRowFor db cid tl = some row := by
    rw [useRowFor, hTar]
  rw [huse]
  cases hm : env.insertMode with
  | alwaysFail => exact absurd hm hmode
  | ok => exact ensureWithRow_stale_ok env db cid tl _ row _ hfresh hm hupd
  | noHash => exact ensureWithRow_stale_noHash env db cid tl _ row _ hfresh hm hupd

/-- Witness for C5: the stale German row triggers the swap — the old row
is flipped non-current, a new current row carrying the signature is
inserted, and the fresh translation is returned; under the hash-less
fallback mode the same row is stored without `pivot_hash`. -/
theorem c5_witness :
    ensureClusterTextInLang envNeuOk dbStale 1 "de" =
      ⟨some (resOfRow (translateNow envNeuOk (pivotFrom rowEn [rowEn, rowDeStale])
          (pivotFrom rowEn [rowEn, rowDeStale]).lang "de").1 true
          (some (pivotFrom rowEn [rowEn, rowDeStale]).lang)),
        insertRow (flipById dbStale rowDeStale.id)
          (mkNewRow (flipById dbStale rowDeStale.id) 1 "de"
            (translateNow envNeuOk (pivotFrom rowEn [rowEn, rowDeStale])
              (pivotFrom rowEn [rowEn, rowDeStale]).lang "de").1
            (envNeuOk.sig (sigInput (pivotFrom rowEn [rowEn, rowDeStale])))
            (decide (envNeuOk.insertMode = InsertMode.ok))),
        (translateNow envNeuOk (pivotFrom rowEn [rowEn, rowDeStale])
          (pivotFrom rowEn [rowEn, rowDeStale]).lang "de").2⟩ ∧
    (ensureClusterTextInLang envNeuOk dbStale 1 "de").res =
      some ⟨"de", "Neu1", "Neu2", "Neu3", true, some "en"⟩ ∧
    (ensureClusterTextInLang envNeuOk dbStale 1 "de").db.rows =
      [rowEn, { rowDeStale with is_current := false },
        ⟨2, 1, "de", "Neu1", "Neu2", "Neu3", true, 30, "bff-stub#ph=SIG", some "SIG"⟩] ∧
    (ensureClusterTextInLang envNeuNoHash dbStale 1 "de").db.rows =
      [rowEn, { rowDeStale with is_current := false },
        ⟨2, 1, "de", "Neu1", "Neu2", "Neu3", true, 30, "bff-stub#ph=SIG", none⟩] :=
  ⟨c5_stale_swap envNeuOk dbStale 1 "de" rowEn [rowDeStale] rowDeStale
      (by decide) (by decide) (by decide) rfl (by decide),
   by decide, by decide, by decide⟩

/-- Counterexample for C5 as frozen: with both insert attempts failing,
the resolver returns the old stale content (`Alt1`), not the newly
translated content (`Neu1`) — insert failures on this path do surface in
the call result. -/
theorem c5_counterexample :
    (ensureClusterTextInLang envNeuFail dbStale 1 "de").res =
      some (resOfRow rowDeStale false none) ∧
    (resOfRow rowDeStale false none).ai_title = "Alt1" ∧
    (envNeuFail.trFields ⟨⟨"Hello", "World", "Story"⟩, "en", "de"⟩).title = "Neu1" ∧
    (("Alt1" : String) ≠ "Neu1") ∧
    (ensureClusterTextInLang envNeuFail dbStale 1 "de").db.rows =
      [rowEn, { rowDeStale with is_current := false }] := by
  decide

/-- After inserting a current row for a pair that had none, the target
select finds exactly the (projected) new row. -/
theorem selTarget_after_insert (db0 : DB) (cid : Nat) (tl : String) (new : Row)
    (hTar : selTargetCurrent db0 cid tl = none)
    (hnew : isCurrentFor cid tl new = true) :
    selTargetCurrent (insertRow db0 new) cid tl = some (proj new) := by
  have hnil : db0.rows.filter (isCurrentFor cid tl) = [] := by
    rw [selTargetCurrent] at hTar
    exact List.head?_eq_none_iff.mp (Option.map_eq_none'.mp hTar)
  rw [selTargetCurrent, insertRow]
  simp only
  rw [List.filter_append, hnil, List.nil_append, List.filter_cons]
  rw [if_pos hnew]
  rfl

/-- Inserting a current row of the cluster appends its projection to the
current-row list. -/
theorem currents_after_insert (db0 : DB) (cid : Nat) (new : Row)
    (hnew : (new.cluster_id = cid && new.is_current : Bool) = true) :
    currentsOf (insertRow db0 new) cid = currentsOf db0 cid ++ [proj new] := by
  rw [currentsOf, currentsOf, insertRow]
  simp only
  rw [List.filter_append, List.filter_cons, if_pos hnew]
  simp

/-- A current row of the cluster is the projection of a stored row, so
its timestamp obeys the database clock. -/
theorem currents_created_le (db0 : DB) (cid : Nat) (pivot : Row)
    (hmem : pivot ∈ currentsOf db0 cid)
    (hclock : ∀ r ∈ db0.rows, r.created_at ≤ db0.now) :
    pivot.created_at ≤ db0.now := by
  rw [currentsOf] at hmem
  obtain ⟨r0, hr0, rfl⟩ := List.mem_map.mp hmem
  exact hclock r0 (List.mem_of_mem_filter hr0)

/-- Claim C3 (amended): after a first call that found no target row,
translated from the pivot and persisted the result (insert succeeding),
a second call with unchanged pivot content invokes no translation at all
and returns content equal to the first call — provided the persisted
translation carries no stub marker, differs field-wise from the pivot
(after whitespace normalisation) whenever the target language differs
from the pivot language, the pivot is the `en` current row, and the
model tag built from the signature does not contain `#body=orig`. The
persisted row carries the pivot signature in both `pivot_hash` and the
model tag. -/
theorem c3_second_call_idempotent (env : Env) (db0 : DB) (cid : Nat) (tl : String)
    (c0 : Row) (cs : List Row) (pivot T : Row) (calls1 : List TransReq)
    (hcur : currentsOf db0 cid = c0 :: cs)
    (hfind : (c0 :: cs).find? (fun r => r.lang = "en") = some pivot)
    (hTar : selTargetCurrent db0 cid tl = none)
    (hBase : selTargetCurrent db0 cid (baseOf tl) = none)
    (hmode : env.insertMode = .ok)
    (hclock : ∀ r ∈ db0.rows, r.created_at ≤ db0.now)
    (hT : translateNow env pivot pivot.lang tl = (T, calls1))
    (hstub1 : strContains T.ai_title " [translated]" = false)
    (hstub2 : strContains T.ai_summary " [translated]" = false)
    (hstub3 : strContains T.ai_details " [translated]" = false)
    (hdiff1 : tl ≠ pivot.lang → ¬(normWs T.ai_title = normWs pivot.ai_title))
    (hdiff2 : tl ≠ pivot.lang → ¬(normWs T.ai_summary = normWs pivot.ai_summary))
    (hdiff3 : tl ≠ pivot.lang → ¬(normWs T.ai_details = normWs pivot.ai_details))
    (horig : strContains ("bff-stub#ph=" ++ env.sig (sigInput pivot)) "#body=orig" = false) :
    (ensureClusterTextInLang env db0 cid tl).db.rows =
      db0.rows ++ [mkNewRow db0 cid tl T (env.sig (sigInput pivot)) true] ∧
    (mkNewRow db0 cid tl T (env.sig (sigInput pivot)) true).pivot_hash =
      some (env.sig (sigInput pivot)) ∧
    (mkNewRow db0 cid tl T (env.sig (sigInput pivot)) true).model =
      "bff-stub#ph=" ++ env.sig (sigInput pivot) ∧
    (ensureClusterTextInLang env
      (ensureClusterTextInLang env db0 cid tl).db cid tl).calls = [] ∧
    ((ensureClusterTextInLang env
      (ensureClusterTextInLang env db0 cid tl).db cid tl).res.map contentOf =
      (ensureClusterTextInLang env db0 cid tl).res.map contentOf) := by
  have hpiv : pivotFrom c0 (c0 :: cs) = pivot := by
    rw [pivotFrom, hfind]
    rfl
  have huse : useRowFor db0 cid tl = none := by
    simp only [useRowFor, hTar]
    split
    · exact hBase
    · rfl
  have hsig : env.sig (sigInput (pivotFrom c0 (c0 :: cs))) = env.sig (sigInput pivot) := by
    rw [hpiv]
  have ho1 : ensureClusterTextInLang env db0 cid tl =
      ⟨some (resOfRow T true (some pivot.lang)),
        insertRow db0 (mkNewRow db0 cid tl T (env.sig (sigInput pivot)) true),
        calls1⟩ := by
    rw [ensure_dispatch env db0 cid tl c0 cs hcur, huse]
    simp only
    rw [ensureNoTarget_eq env db0 cid tl _ _ hTar, hmode]
    simp only [hpiv, hT]
  set sig := env.sig (sigInput pivot) with hsigdef
  set new := mkNewRow db0 cid tl T sig true with hnewdef
  have hnewcur : isCurrentFor cid tl new = true := by
    simp [isCurrentFor, hnewdef, mkNewRow]
  have hnewcl : (new.cluster_id = cid && new.is_current : Bool) = true := by
    simp [hnewdef, mkNewRow]
  set db1 := insertRow db0 new with hdb1def
  have hTar1 : selTargetCurrent db1 cid tl = some (proj new) :=
    selTarget_after_insert db0 cid tl new hTar hnewcur
  have hcur1 : currentsOf db1 cid = c0 :: (cs ++ [proj new]) := by
    rw [hdb1def, currents_after_insert db0 cid new hnewcl, hcur]
    rfl
  have hfind1 : (c0 :: (cs ++ [proj new])).find? (fun r => r.lang = "en") = some pivot := by
    have : (c0 :: (cs ++ [proj new])) = (c0 :: cs) ++ [proj new] := rfl
    rw [this, List.find?_append, hfind]
    rfl
  have hpiv1 : pivotFrom c0 (c0 :: (cs ++ [proj new])) = pivot := by
    rw [pivotFrom, hfind1]
    rfl
  have huse1 : useRowFor db1 cid tl = some (proj new) := by
    rw [useRowFor, hTar1]
  have hpivmem : pivot ∈ currentsOf db0 cid := by
    rw [hcur]
    exact List.mem_of_find?_eq_some hfind
  have hpivnow : pivot.created_at ≤ db0.now :=
    currents_created_le db0 cid pivot hpivmem hclock
  have hfresh1 : freshCheck (proj new) pivot sig = true := by
    have hts : decide (pivot.created_at ≤ (proj new).created_at) = true := by
      simp only [hnewdef, proj, mkNewRow]
      exact decide_eq_true hpivnow
    by_cases htl : tl = pivot.lang
    · simp [freshCheck, hnewdef, proj, mkNewRow, hstub1, hstub2, hstub3, htl, hpivnow]
    · simp [freshCheck, hnewdef, proj, mkNewRow, hstub1, hstub2, hstub3, htl,
        hpivnow, hdiff1 htl, hdiff2 htl, hdiff3 htl]
  have horig1 : (strContains (proj new).model "#body=orig" &&
      (baseOf (proj new).lang = baseOf tl : Bool)) = false := by
    simp only [hnewdef, proj, mkNewRow]
    simp [horig]
  have ho2 : ensureClusterTextInLang env db1 cid tl =
      ⟨some (resOfRow (proj new) false none), db1, []⟩ := by
    rw [ensure_dispatch env db1 cid tl c0 (cs ++ [proj new]) hcur1, huse1]
    simp only
    rw [hpiv1]
    exact ensureWithRow_fresh_plain env db1 cid tl pivot (proj new) sig hfresh1 horig1
  refine ⟨?_, rfl, rfl, ?_, ?_⟩
  · rw [ho1]
    rfl
  · rw [ho1]
    simp only
    rw [ho2]
  · rw [ho1]
    simp only
    rw [ho2]
    rfl

/-- Witness for C3: on the one-row cluster, the first call persists the
translated row with the signature and a second call invokes no
translation and returns the same content. -/
theorem c3_witness :
    (ensureClusterTextInLang envTr dbPivotOnly 1 "de").db.rows =
      dbPivotOnly.rows ++
        [mkNewRow dbPivotOnly 1 "de" rowTrDe (envTr.sig (sigInput rowEn)) true] ∧
    (ensureClusterTextInLang envTr
      (ensureClusterTextInLang envTr dbPivotOnly 1 "de").db 1 "de").calls = [] ∧
    ((ensureClusterTextInLang envTr
      (ensureClusterTextInLang envTr dbPivotOnly 1 "de").db 1 "de").res.map contentOf =
      (ensureClusterTextInLang envTr dbPivotOnly 1 "de").res.map contentOf) :=
  have h := c3_second_call_idempotent envTr dbPivotOnly 1 "de" rowEn [] rowEn
    rowTrDe [reqC3] (by decide) (by decide) (by decide) (by decide) rfl
    (by decide) (by decide) (by decide) (by decide) (by decide) (by decide)
    (by decide) (by decide) (by decide)
  ⟨h.1, h.2.2.2.1, h.2.2.2.2⟩

/-- Counterexample for C3 as frozen: when the persisted translation
carries the stub marker (exactly what the provider-exhausted fallback
stores), the second call classifies the row stale, re-enters the
translation pipeline (one more `translateFieldsCached` invocation) and
swaps in yet another row instead of serving the persisted one. -/
theorem c3_counterexample :
    (ensureClusterTextInLang envMark
      (ensureClusterTextInLang envMark dbPivotOnly 1 "de").db 1 "de").calls.length = 1 ∧
    (ensureClusterTextInLang envMark
        (ensureClusterTextInLang envMark dbPivotOnly 1 "de").db 1 "de").db.rows.length =
      (ensureClusterTextInLang envMark dbPivotOnly 1 "de").db.rows.length + 1 := by
  decide

end BFF
